import Mathlib

/-!
Shallow embedding of `tte.c` (GrenderG/tte, a terminal text editor).

Rows are modelled as `List Char` (one Lean `Char` per C `char` byte; the
files handled by tte are single-byte encoded).  The C `int` fields of
`struct editor_config` are modelled as `Int`.  The render cache
(`row->render`, `row->render_size`) is not stored: `editorUpdateRow` is
invoked after every mutation of `row->chars` in the C code, so `render`
always equals the pure tab expansion of `chars`; it is recomputed here by
`renderRow` at its use sites.
-/

/-- TTE_TAB_STOP from tte.c: length of a tab stop. -/
def TTE_TAB_STOP : Nat := 8

/-- TTE_QUIT_TIMES from tte.c: times to press Ctrl-Q before exiting. -/
def TTE_QUIT_TIMES : Int := 3

/-- CTRL_KEY(k) = k & 0x1f from tte.c. -/
def CTRL_KEY (k : Char) : Int := (k.toNat % 32 : Nat)

/-- editor_key enum values from tte.c. -/
def BACKSPACE : Int := 127
def ARROW_LEFT : Int := 1000
def ARROW_RIGHT : Int := 1001
def ARROW_UP : Int := 1002
def ARROW_DOWN : Int := 1003
def PAGE_UP : Int := 1004
def PAGE_DOWN : Int := 1005
def HOME_KEY : Int := 1006
def END_KEY : Int := 1007
def DEL_KEY : Int := 1008

/-- One step of the render-column accumulation of `editorRowCursorXToRenderX`:
for a tab, `render_x += (TTE_TAB_STOP - 1) - (render_x % TTE_TAB_STOP)`,
then unconditionally `render_x++`. -/
def stepRx (rx : Nat) (c : Char) : Nat :=
  (if c = '\t' then rx + ((TTE_TAB_STOP - 1) - rx % TTE_TAB_STOP) else rx) + 1

/-- editorRowCursorXToRenderX from tte.c: walk the bytes `[0, cursor_x)` of the
row accumulating the render column.  The C loop reads `row->chars[j]` for
`j < cursor_x`; all call sites keep `cursor_x` within `[0, size]`, which the
`take` reflects. -/
def editorRowCursorXToRenderX (chars : List Char) (cursor_x : Int) : Int :=
  ((chars.take cursor_x.toNat).foldl stepRx 0 : Nat)

/-- Loop body of editorRowRenderXToCursorX: scan the row accumulating
`cur_render_x`; return the current index as soon as the accumulated render
column exceeds the target. -/
def rxToCxGo (rx : Nat) : List Char → Nat → Nat → Nat
  | [], _, cx => cx
  | c :: rest, cur, cx =>
    let cur' := stepRx cur c
    if rx < cur' then cx else rxToCxGo rx rest cur' (cx + 1)

/-- editorRowRenderXToCursorX from tte.c. -/
def editorRowRenderXToCursorX (chars : List Char) (render_x : Int) : Int :=
  (rxToCxGo render_x.toNat chars 0 0 : Nat)

/-- editorUpdateRow from tte.c, as the pure tab-expansion of the raw bytes:
each tab becomes one space followed by spaces up to the next multiple of
TTE_TAB_STOP (8 - idx % 8 spaces in total). -/
def renderRow (chars : List Char) : List Char :=
  chars.foldl
    (fun acc c =>
      if c = '\t' then acc ++ List.replicate (TTE_TAB_STOP - acc.length % TTE_TAB_STOP) ' '
      else acc ++ [c])
    []

/-! Lemmas about the two coordinate mappings. -/

theorem stepRx_gt (rx : Nat) (c : Char) : rx < stepRx rx c := by
  unfold stepRx
  split <;> omega

theorem foldl_stepRx_le (l : List Char) (a : Nat) : a ≤ l.foldl stepRx a := by
  induction l generalizing a with
  | nil => simp
  | cons c t ih =>
    simp only [List.foldl_cons]
    exact le_trans (le_of_lt (stepRx_gt a c)) (ih (stepRx a c))

/-- Core of the inverse property: starting the scan with accumulator `cur` and
counter `acc`, with target render column obtained by folding over the first
`cx` characters, the scan stops exactly after consuming `cx` characters. -/
theorem rxToCxGo_foldl (chars : List Char) (cx cur acc : Nat) (h : cx ≤ chars.length) :
    rxToCxGo ((chars.take cx).foldl stepRx cur) chars cur acc = acc + cx := by
  induction chars generalizing cx cur acc with
  | nil =>
    have hz : cx = 0 := by simpa using h
    subst hz
    simp [rxToCxGo]
  | cons c t ih =>
    cases cx with
    | zero =>
      simp only [List.take_zero, List.foldl_nil, rxToCxGo]
      rw [if_pos (stepRx_gt cur c)]
      omega
    | succ k =>
      simp only [List.take_succ_cons, List.foldl_cons, rxToCxGo]
      rw [if_neg, ih k (stepRx cur c) (acc + 1) (by simpa using h)]
      · omega
      · exact not_lt.mpr (foldl_stepRx_le _ _)

/-- C2: for every row and every cursor_x in [0, row.size], composing the two
coordinate mappings returns the original value:
`editorRowRenderXToCursorX (row, editorRowCursorXToRenderX (row, cursor_x)) = cursor_x`. -/
theorem render_cursor_roundtrip (chars : List Char) (cx : Nat) (h : cx ≤ chars.length) :
    editorRowRenderXToCursorX chars (editorRowCursorXToRenderX chars (cx : Int)) = (cx : Int) := by
  unfold editorRowRenderXToCursorX editorRowCursorXToRenderX
  rw [Int.toNat_natCast]
  rw [Int.toNat_natCast, rxToCxGo_foldl chars cx 0 0 h]
  simp

/-- Witness for C2 at the concrete row "a\tb" and cursor_x = 2. -/
theorem render_cursor_roundtrip_witness :
    (2 ≤ (['a', '\t', 'b'] : List Char).length) ∧
      editorRowRenderXToCursorX ['a', '\t', 'b']
        (editorRowCursorXToRenderX ['a', '\t', 'b'] (2 : Nat)) = (2 : Nat) :=
  ⟨by decide, render_cursor_roundtrip ['a', '\t', 'b'] 2 (by decide)⟩

/-- C8: for the row consisting of a tab then 'A', the render column of
cursor_x = 1 is 8 and of cursor_x = 2 is 9. -/
theorem tab_render_positions :
    editorRowCursorXToRenderX ['\t', 'A'] 1 = 8 ∧
      editorRowCursorXToRenderX ['\t', 'A'] 2 = 9 := by
  constructor <;> rfl

/-! The editor state (`struct editor_config` from tte.c). -/

/-- The transient status message.  The C code stores a formatted string in
`ec.status_msg`; here each distinct message produced by the modelled
operations gets one constructor (the format arguments are carried along). -/
inductive StatusMsg where
  | empty
  | help
  | promptMsg (buf : List Char)
  | quitWarning (remaining : Int)
  | saveAborted
  | saveError
  | bytesWritten (n : Nat)
deriving DecidableEq, Repr

/-- struct editor_config from tte.c.  `num_rows` is `rows.length` (the C code
keeps the two in sync), and the per-row render caches are recomputed on
demand by `renderRow`.  `orig_termios` and `status_msg_time` are terminal
state and wall-clock time, outside this model. -/
structure EState where
  cursor_x : Int
  cursor_y : Int
  render_x : Int
  row_offset : Int
  col_offset : Int
  screen_rows : Int
  screen_cols : Int
  rows : List (List Char)
  dirty : Int
  file_name : Option (List Char)
  status : StatusMsg
deriving DecidableEq, Repr

/-- ec.num_rows. -/
def numRows (e : EState) : Int := e.rows.length

/-- Read `rows[i]` for an `int` index: the C code only dereferences
`ec.row[i]` behind bounds guards, so the out-of-range default is never
reached on the guarded paths. -/
def rowAt (rows : List (List Char)) (i : Int) : List Char :=
  if 0 ≤ i then rows.getD i.toNat [] else []

/-- Length of `rows[i]` (i.e. `ec.row[i].size`) as an `int`. -/
def rowLenAt (rows : List (List Char)) (i : Int) : Int :=
  ((rowAt rows i).length : Nat)

/-- Truncate an `int` key to a `char` as the C assignments
`buf[buf_len++] = c` and `row->chars[at] = c` do. -/
def intToChar (c : Int) : Char := Char.ofNat (c.toNat % 256)

/-! Row operations (tte.c, "Row operations" section). -/

/-- editorInsertRow from tte.c: insert a row at index `at` (rejected when
out of `[0, num_rows]`), shifting subsequent rows; increments dirty. -/
def editorInsertRow (e : EState) (at_ : Int) (s : List Char) : EState :=
  if at_ < 0 ∨ numRows e < at_ then e
  else { e with rows := e.rows.insertIdx at_.toNat s, dirty := e.dirty + 1 }

/-- editorDelRow from tte.c: remove the row at `at` (no-op when out of
range); increments dirty. -/
def editorDelRow (e : EState) (at_ : Int) : EState :=
  if at_ < 0 ∨ numRows e ≤ at_ then e
  else { e with rows := e.rows.eraseIdx at_.toNat, dirty := e.dirty + 1 }

/-- editorRowInsertChar from tte.c, applied to the row at index `i`: inserts
the byte at column `at` (clamped to the row size when out of range);
increments dirty. -/
def editorRowInsertChar (e : EState) (i : Int) (at_ : Int) (c : Int) : EState :=
  let row := rowAt e.rows i
  let a : Nat := if at_ < 0 ∨ (row.length : Int) < at_ then row.length else at_.toNat
  { e with rows := e.rows.set i.toNat (row.insertIdx a (intToChar c)), dirty := e.dirty + 1 }

/-- editorRowDelChar from tte.c, applied to the row at index `i`: removes the
byte at column `at` (no-op when out of range); increments dirty. -/
def editorRowDelChar (e : EState) (i : Int) (at_ : Int) : EState :=
  let row := rowAt e.rows i
  if at_ < 0 ∨ (row.length : Int) ≤ at_ then e
  else { e with rows := e.rows.set i.toNat (row.eraseIdx at_.toNat), dirty := e.dirty + 1 }

/-- editorRowAppendString from tte.c, applied to the row at index `i`. -/
def editorRowAppendString (e : EState) (i : Int) (s : List Char) : EState :=
  { e with rows := e.rows.set i.toNat (rowAt e.rows i ++ s), dirty := e.dirty + 1 }

/-! Editor operations (tte.c, "Editor operations" section). -/

/-- editorInsertChar from tte.c. -/
def editorInsertChar (e : EState) (c : Int) : EState :=
  let e1 := if e.cursor_y = numRows e then editorInsertRow e (numRows e) [] else e
  let e2 := editorRowInsertChar e1 e1.cursor_y e1.cursor_x c
  { e2 with cursor_x := e2.cursor_x + 1 }

/-- editorInsertNewline from tte.c: at column 0 insert an empty row above,
otherwise split the current row at the cursor; then move to column 0 of the
next line. -/
def editorInsertNewline (e : EState) : EState :=
  let e1 :=
    if e.cursor_x = 0 then editorInsertRow e e.cursor_y []
    else
      let row := rowAt e.rows e.cursor_y
      let e' := editorInsertRow e (e.cursor_y + 1) (row.drop e.cursor_x.toNat)
      { e' with rows := e'.rows.set e.cursor_y.toNat (row.take e.cursor_x.toNat) }
  { e1 with cursor_y := e1.cursor_y + 1, cursor_x := 0 }

/-- editorDelChar from tte.c. -/
def editorDelChar (e : EState) : EState :=
  if e.cursor_y = numRows e then e
  else if e.cursor_x = 0 ∧ e.cursor_y = 0 then e
  else
    let row := rowAt e.rows e.cursor_y
    if 0 < e.cursor_x then
      let e1 := editorRowDelChar e e.cursor_y (e.cursor_x - 1)
      { e1 with cursor_x := e1.cursor_x - 1 }
    else
      let e1 := { e with cursor_x := rowLenAt e.rows (e.cursor_y - 1) }
      let e2 := editorRowAppendString e1 (e.cursor_y - 1) row
      let e3 := editorDelRow e2 e.cursor_y
      { e3 with cursor_y := e3.cursor_y - 1 }

/-! Output section: editorScroll. -/

/-- The `render_x` recomputation at the top of editorScroll: 0 on the
virtual row past EOF, otherwise the tab-expanded column of the cursor. -/
def rxOf (e : EState) : Int :=
  if e.cursor_y < numRows e then
    editorRowCursorXToRenderX (rowAt e.rows e.cursor_y) e.cursor_x
  else 0

/-- editorScroll from tte.c: recompute `render_x` and clamp the two viewport
offsets so the cursor is visible. -/
def editorScroll (e : EState) : EState :=
  let rx := rxOf e
  let ro1 := if e.cursor_y < e.row_offset then e.cursor_y else e.row_offset
  let ro2 := if ro1 + e.screen_rows ≤ e.cursor_y then e.cursor_y - e.screen_rows + 1 else ro1
  let co1 := if rx < e.col_offset then rx else e.col_offset
  let co2 := if co1 + e.screen_cols ≤ rx then rx - e.screen_cols + 1 else co1
  { e with render_x := rx, row_offset := ro2, col_offset := co2 }

/-! Input section: editorMoveCursor. -/

/-- The trailing clamp of editorMoveCursor: snap `cursor_x` back to the end
of the line the cursor landed on (`row_len` is 0 on the virtual row past
EOF, where the C `row` pointer is NULL). -/
def moveClamp (e1 : EState) : EState :=
  let row_len : Int := if numRows e1 ≤ e1.cursor_y then 0 else rowLenAt e1.rows e1.cursor_y
  if row_len < e1.cursor_x then { e1 with cursor_x := row_len } else e1

/-- The switch of editorMoveCursor from tte.c.  The C `row` pointer is NULL
exactly when `cursor_y >= num_rows`. -/
def moveSwitch (e : EState) (key : Int) : EState :=
  if key = ARROW_LEFT then
    if e.cursor_x ≠ 0 then { e with cursor_x := e.cursor_x - 1 }
    else if 0 < e.cursor_y then
      { e with cursor_y := e.cursor_y - 1, cursor_x := rowLenAt e.rows (e.cursor_y - 1) }
    else e
  else if key = ARROW_RIGHT then
    if e.cursor_y < numRows e then
      if e.cursor_x < rowLenAt e.rows e.cursor_y then { e with cursor_x := e.cursor_x + 1 }
      else if e.cursor_x = rowLenAt e.rows e.cursor_y then
        { e with cursor_y := e.cursor_y + 1, cursor_x := 0 }
      else e
    else e
  else if key = ARROW_UP then
    if e.cursor_y ≠ 0 then { e with cursor_y := e.cursor_y - 1 } else e
  else if key = ARROW_DOWN then
    if e.cursor_y < numRows e then { e with cursor_y := e.cursor_y + 1 } else e
  else e

/-- editorMoveCursor from tte.c: the arrow-key switch followed by the
end-of-line clamp. -/
def editorMoveCursor (e : EState) (key : Int) : EState :=
  moveClamp (moveSwitch e key)

/-- The `while (times--)` loop of the PageUp/PageDown branch of
editorProcessKeypress, iterated `times = screen_rows` times. -/
def timesMove (e : EState) (key : Int) : Nat → EState
  | 0 => e
  | n + 1 => timesMove (editorMoveCursor e key) key n

/-! File I/O section. -/

/-- editorRowsToString from tte.c: each row's raw bytes followed by one
newline. -/
def editorRowsToString (rows : List (List Char)) : List Char :=
  rows.foldr (fun r acc => r ++ '\n' :: acc) []

/-- One `getline` chunking pass over a byte stream: cut after every newline
byte; a final chunk without a newline is still returned; `acc` holds the
reversed bytes of the current partial line. -/
def getlinesGo : List Char → List Char → List (List Char)
  | [], acc => if acc = [] then [] else [acc.reverse]
  | c :: t, acc =>
    if c = '\n' then (acc.reverse ++ ['\n']) :: getlinesGo t []
    else getlinesGo t (c :: acc)

/-- Split a byte stream into the lines `getline` would return (each including
its trailing newline, except possibly the last). -/
def getlines (s : List Char) : List (List Char) := getlinesGo s []

/-- The per-line stripping of editorOpen from tte.c: drop exactly one
trailing newline or carriage return. -/
def stripNewline (line : List Char) : List Char :=
  if line ≠ [] ∧ (line.getLast? = some '\n' ∨ line.getLast? = some '\r') then line.dropLast
  else line

/-- The row list editorOpen builds from a byte stream: one `editorInsertRow`
per `getline` result, each stripped of one trailing newline or carriage
return. -/
def editorOpenRows (s : List Char) : List (List Char) :=
  (getlines s).map stripNewline

/-- editorSave from tte.c.  The interactive and file-system responses are
oracle parameters: `promptRes` is what `editorPrompt` returns when the file
name is unset, `openOk` is whether `open` returns a valid fd, `truncOk`
whether `ftruncate` succeeds, and `written` the byte count `write` returns. -/
def editorSave (e : EState) (promptRes : Option (List Char)) (openOk truncOk : Bool)
    (written : Int) : EState :=
  let e1 :=
    match e.file_name with
    | some _ => e
    | none => { e with file_name := promptRes }
  match e1.file_name with
  | none => { e1 with status := .saveAborted }
  | some _ =>
    let buf := editorRowsToString e1.rows
    if openOk then
      if truncOk then
        if written = (buf.length : Int) then
          { e1 with dirty := 0, status := .bytesWritten buf.length }
        else { e1 with status := .saveError }
      else { e1 with status := .saveError }
    else { e1 with status := .saveError }

/-! Search section. -/

/-- C strstr on byte lists: index of the first occurrence of `q` in `hay`
(`some 0` for the empty needle, as in C). -/
def strstr (q : List Char) : List Char → Option Nat
  | [] => if q.isPrefixOf [] then some 0 else none
  | c :: t => if q.isPrefixOf (c :: t) then some 0 else (strstr q t).map (· + 1)

/-- The scan loop of editorSearchCallback: the first row (top to bottom)
whose rendered content contains the query, together with the render offset
of the match. -/
def findMatch (q : List Char) : List (List Char) → Option (Nat × Nat)
  | [] => none
  | r :: rest =>
    match strstr q (renderRow r) with
    | some off => some (0, off)
    | none => (findMatch q rest).map (fun p => (p.1 + 1, p.2))

/-- editorSearchCallback from tte.c: on Enter or Escape do nothing; otherwise
jump the cursor to the first match of the query and force `row_offset` to
`num_rows`. -/
def editorSearchCallback (e : EState) (query : List Char) (key : Int) : EState :=
  if key = 13 ∨ key = 27 then e
  else
    match findMatch query e.rows with
    | some (i, off) =>
      { e with
        cursor_y := (i : Nat),
        cursor_x := editorRowRenderXToCursorX (rowAt e.rows (i : Nat)) (off : Nat),
        row_offset := numRows e }
    | none => e

/-! Input section: editorPrompt. -/

/-- The `iscntrl` test of editorPrompt, for the byte-range keys the C locale
classifies (control bytes 0..31 and 127); the out-of-range special key codes
(1000..1008) are not control characters. -/
def iscntrl (c : Int) : Bool := (0 ≤ c ∧ c ≤ 31) ∨ c = 127

/-- Result of a run of editorPrompt on a finite key sequence.  `outcome` is
`none` while the loop is still waiting for keys, `some none` when the prompt
returned NULL (Escape), and `some (some s)` when it returned the buffer `s`
(Enter).  `calls` logs each `callback(buf, c)` invocation (in order) that the
C code performs when a callback is supplied. -/
structure PromptResult where
  state : EState
  buf : List Char
  calls : List (List Char × Int)
  outcome : Option (Option (List Char))
deriving Repr

/-- Apply the optional per-key callback exactly where `if (callback)
callback(buf, c);` appears in tte.c. -/
def applyCb (cb : Option (EState → List Char → Int → EState)) (e : EState)
    (buf : List Char) (c : Int) : EState :=
  match cb with
  | some f => f e buf c
  | none => e

/-- Record a callback invocation in the log only when a callback is present
(mirroring the `if (callback)` guards). -/
def cbLog (cb : Option (EState → List Char → Int → EState)) (buf : List Char) (c : Int) :
    List (List Char × Int) :=
  match cb with
  | some _ => [(buf, c)]
  | none => []

/-- editorPrompt from tte.c, run over a finite list of incoming keys.  Each
iteration first sets the status message to the prompt (with the buffer
interpolated) and refreshes the screen (which runs editorScroll), then
dispatches on the key exactly as the C branches do. -/
def editorPrompt (cb : Option (EState → List Char → Int → EState)) (e : EState)
    (buf : List Char) : List Int → PromptResult
  | [] => { state := e, buf := buf, calls := [], outcome := none }
  | c :: ks =>
    let e0 := editorScroll { e with status := .promptMsg buf }
    if c = DEL_KEY ∨ c = CTRL_KEY 'h' ∨ c = BACKSPACE then
      let buf' := if buf ≠ [] then buf.dropLast else buf
      let r := editorPrompt cb (applyCb cb e0 buf' c) buf' ks
      { r with calls := cbLog cb buf' c ++ r.calls }
    else if c = 27 then
      let e1 := { e0 with status := .empty }
      { state := applyCb cb e1 buf c, buf := buf, calls := cbLog cb buf c,
        outcome := some none }
    else if c = 13 then
      if buf ≠ [] then
        let e1 := { e0 with status := .empty }
        { state := applyCb cb e1 buf c, buf := buf, calls := cbLog cb buf c,
          outcome := some (some buf) }
      else
        let r := editorPrompt cb (applyCb cb e0 buf c) buf ks
        { r with calls := cbLog cb buf c ++ r.calls }
    else
      let buf' := if ¬ iscntrl c then buf ++ [intToChar c] else buf
      let r := editorPrompt cb (applyCb cb e0 buf' c) buf' ks
      { r with calls := cbLog cb buf' c ++ r.calls }

/-- editorSearch from tte.c: save the cursor and viewport, run the prompt
with the search callback, and restore the saved values when the prompt was
cancelled with Escape. -/
def editorSearch (e : EState) (ks : List Int) : EState :=
  let r := editorPrompt (some editorSearchCallback) e [] ks
  match r.outcome with
  | some none =>
    { r.state with
      cursor_x := e.cursor_x, cursor_y := e.cursor_y,
      col_offset := e.col_offset, row_offset := e.row_offset }
  | _ => r.state

/-! Terminal section: resize handling. -/

/-- editorUpdateWindowSize from tte.c, given the fresh ioctl geometry:
`screen_rows = ws_row - 2` (room for the status and message bars). -/
def editorUpdateWindowSize (e : EState) (wsRow wsCol : Int) : EState :=
  { e with screen_rows := wsRow - 2, screen_cols := wsCol }

/-- editorHandleSigwinch from tte.c: refresh the geometry, then clamp the
cursor against the new screen size.  (Note the clamps compare the logical
cursor position against the screen geometry, not against the row bounds.) -/
def editorHandleSigwinch (e : EState) (wsRow wsCol : Int) : EState :=
  let e1 := editorUpdateWindowSize e wsRow wsCol
  let e2 := if e1.screen_rows < e1.cursor_y then { e1 with cursor_y := e1.screen_rows - 1 } else e1
  if e2.screen_cols < e2.cursor_x then { e2 with cursor_x := e2.screen_cols - 1 } else e2

/-! editorProcessKeypress and the main loop. -/

/-- One input event of the main loop.  `key c` is any key code returned by
editorReadKey other than Ctrl-S and Ctrl-F; those two start interactive
sub-loops and are represented by `save` (carrying the prompt result and the
open/ftruncate/write responses) and `search` (carrying the keys typed into
the search prompt). -/
inductive EdEvent where
  | key (c : Int)
  | save (promptRes : Option (List Char)) (openOk truncOk : Bool) (written : Int)
  | search (ks : List Int)
deriving Repr

/-- editorProcessKeypress from tte.c: dispatch one event, threading the
static `quit_times` counter; the returned Bool is whether `exit(0)` was
reached.  (On the exit path the state is returned unchanged; the process is
gone in C.)  Every path except the dirty Ctrl-Q warning resets `quit_times`
to TTE_QUIT_TIMES. -/
def editorProcessKeypress (e : EState) (qt : Int) (ev : EdEvent) : EState × Int × Bool :=
  match ev with
  | .save pr oOk tOk w => (editorSave e pr oOk tOk w, TTE_QUIT_TIMES, false)
  | .search ks => (editorSearch e ks, TTE_QUIT_TIMES, false)
  | .key c =>
    if c = 13 then (editorInsertNewline e, TTE_QUIT_TIMES, false)
    else if c = CTRL_KEY 'q' then
      if e.dirty ≠ 0 ∧ 0 < qt then ({ e with status := .quitWarning qt }, qt - 1, false)
      else (e, qt, true)
    else if c = ARROW_UP ∨ c = ARROW_DOWN ∨ c = ARROW_LEFT ∨ c = ARROW_RIGHT then
      (editorMoveCursor e c, TTE_QUIT_TIMES, false)
    else if c = PAGE_UP ∨ c = PAGE_DOWN then
      let e1 :=
        if c = PAGE_UP then { e with cursor_y := e.row_offset }
        else { e with cursor_y := e.row_offset + e.screen_rows - 1 }
      (timesMove e1 (if c = PAGE_UP then ARROW_UP else ARROW_DOWN) e.screen_rows.toNat,
        TTE_QUIT_TIMES, false)
    else if c = HOME_KEY then ({ e with cursor_x := 0 }, TTE_QUIT_TIMES, false)
    else if c = END_KEY then
      (if e.cursor_y < numRows e then { e with cursor_x := rowLenAt e.rows e.cursor_y } else e,
        TTE_QUIT_TIMES, false)
    else if c = BACKSPACE ∨ c = CTRL_KEY 'h' ∨ c = DEL_KEY then
      (editorDelChar (if c = DEL_KEY then editorMoveCursor e ARROW_RIGHT else e),
        TTE_QUIT_TIMES, false)
    else if c = CTRL_KEY 'l' ∨ c = 27 then (e, TTE_QUIT_TIMES, false)
    else (editorInsertChar e c, TTE_QUIT_TIMES, false)

/-- One main-loop iteration: `editorRefreshScreen()` (whose state effect is
editorScroll) followed by `editorProcessKeypress()`. -/
def stepEv (p : EState × Int) (ev : EdEvent) : EState × Int × Bool :=
  editorProcessKeypress (editorScroll p.1) p.2 ev

/-- The editor state after initEditor and an optional editorOpen: cursor and
offsets zeroed, the loaded rows in place, dirty reset, and the initial help
status message set by main. -/
def initState (rows0 : List (List Char)) (sr sc : Int) (fn : Option (List Char)) : EState :=
  { cursor_x := 0, cursor_y := 0, render_x := 0, row_offset := 0, col_offset := 0,
    screen_rows := sr, screen_cols := sc, rows := rows0, dirty := 0, file_name := fn,
    status := .help }

/-- Iterate `stepEv` with the same key `n` times (used for the quit
debounce). -/
def iterKey (e : EState) (qt : Int) (c : Int) : Nat → EState × Int × Bool
  | 0 => (e, qt, false)
  | n + 1 =>
    let r := iterKey e qt c n
    stepEv (r.1, r.2.1) (.key c)

/-! Properties of editorScroll. -/

theorem rxOf_nonneg (e : EState) : 0 ≤ rxOf e := by
  unfold rxOf
  split
  · unfold editorRowCursorXToRenderX
    exact Int.natCast_nonneg _
  · exact le_refl 0

theorem editorScroll_cursor_x (e : EState) : (editorScroll e).cursor_x = e.cursor_x := rfl
theorem editorScroll_cursor_y (e : EState) : (editorScroll e).cursor_y = e.cursor_y := rfl
theorem editorScroll_rows (e : EState) : (editorScroll e).rows = e.rows := rfl
theorem editorScroll_screen_rows (e : EState) : (editorScroll e).screen_rows = e.screen_rows := rfl
theorem editorScroll_screen_cols (e : EState) : (editorScroll e).screen_cols = e.screen_cols := rfl
theorem editorScroll_dirty (e : EState) : (editorScroll e).dirty = e.dirty := rfl
theorem editorScroll_render_x (e : EState) : (editorScroll e).render_x = rxOf e := rfl
theorem rxOf_scroll (e : EState) : rxOf (editorScroll e) = rxOf e := rfl

theorem editorScroll_row_bounds (e : EState) (hsr : 1 ≤ e.screen_rows) :
    (editorScroll e).row_offset ≤ e.cursor_y ∧
      e.cursor_y < (editorScroll e).row_offset + e.screen_rows := by
  unfold editorScroll
  dsimp only
  split_ifs <;> constructor <;> omega

theorem editorScroll_col_bounds (e : EState) (hsc : 1 ≤ e.screen_cols) :
    (editorScroll e).col_offset ≤ rxOf e ∧
      rxOf e < (editorScroll e).col_offset + e.screen_cols := by
  have hrx := rxOf_nonneg e
  unfold editorScroll
  dsimp only
  split_ifs <;> constructor <;> omega

theorem editorScroll_offsets_nonneg (e : EState) (hro : 0 ≤ e.row_offset)
    (hco : 0 ≤ e.col_offset) (hcy : 0 ≤ e.cursor_y) :
    0 ≤ (editorScroll e).row_offset ∧ 0 ≤ (editorScroll e).col_offset := by
  have hrx := rxOf_nonneg e
  unfold editorScroll
  dsimp only
  split_ifs <;> constructor <;> omega

/-- When `render_x` and the offsets already satisfy the visibility bounds,
editorScroll changes nothing. -/
theorem editorScroll_eq_self (e : EState) (hrx : e.render_x = rxOf e)
    (h1 : e.row_offset ≤ e.cursor_y) (h2 : e.cursor_y < e.row_offset + e.screen_rows)
    (h3 : e.col_offset ≤ rxOf e) (h4 : rxOf e < e.col_offset + e.screen_cols) :
    editorScroll e = e := by
  unfold editorScroll
  dsimp only
  rw [if_neg (by omega), if_neg (by omega), if_neg (by omega), if_neg (by omega), ← hrx]

/-- editorScroll is idempotent (on screens of positive size). -/
theorem editorScroll_idem (e : EState) (hsr : 1 ≤ e.screen_rows) (hsc : 1 ≤ e.screen_cols) :
    editorScroll (editorScroll e) = editorScroll e := by
  have hrow := editorScroll_row_bounds e hsr
  have hcol := editorScroll_col_bounds e hsc
  exact editorScroll_eq_self (editorScroll e) rfl hrow.1 hrow.2 hcol.1 hcol.2

/-- C3: for every editor state with positive screen size and cursor_y ≥ 0,
after editorScroll runs the cursor row is inside the vertical window and
render_x is inside the horizontal window, whatever the prior offsets; hence
a second editorScroll with the cursor unchanged changes no offsets. -/
theorem scroll_invariant (e : EState) (hsr : 1 ≤ e.screen_rows) (hsc : 1 ≤ e.screen_cols)
    (hcy : 0 ≤ e.cursor_y) :
    ((editorScroll e).row_offset ≤ (editorScroll e).cursor_y ∧
      (editorScroll e).cursor_y < (editorScroll e).row_offset + (editorScroll e).screen_rows ∧
      (editorScroll e).col_offset ≤ (editorScroll e).render_x ∧
      (editorScroll e).render_x < (editorScroll e).col_offset + (editorScroll e).screen_cols) ∧
    editorScroll (editorScroll e) = editorScroll e := by
  have hrow := editorScroll_row_bounds e hsr
  have hcol := editorScroll_col_bounds e hsc
  exact ⟨⟨hrow.1, hrow.2, hcol.1, hcol.2⟩, editorScroll_idem e hsr hsc⟩

/-- A concrete state used as witness input for C3: tiny buffer, offsets far
from the cursor. -/
def scrollWitnessState : EState :=
  { cursor_x := 2
    cursor_y := 1
    render_x := 0
    row_offset := 5
    col_offset := 9
    screen_rows := 4
    screen_cols := 7
    rows := [['a'], ['b', 'c', 'd']]
    dirty := 0
    file_name := none
    status := .empty }

/-- Witness for C3 at a concrete state. -/
theorem scroll_invariant_witness :
    ((editorScroll scrollWitnessState).row_offset ≤ (editorScroll scrollWitnessState).cursor_y ∧
      (editorScroll scrollWitnessState).cursor_y <
        (editorScroll scrollWitnessState).row_offset +
          (editorScroll scrollWitnessState).screen_rows ∧
      (editorScroll scrollWitnessState).col_offset ≤ (editorScroll scrollWitnessState).render_x ∧
      (editorScroll scrollWitnessState).render_x <
        (editorScroll scrollWitnessState).col_offset +
          (editorScroll scrollWitnessState).screen_cols) ∧
    editorScroll (editorScroll scrollWitnessState) = editorScroll scrollWitnessState :=
  scroll_invariant scrollWitnessState (by decide) (by decide) (by decide)


/-! The quit debounce (Ctrl-Q handling in editorProcessKeypress). -/

/-- Dispatch of editorProcessKeypress on the Ctrl-Q key. -/
theorem processKeypress_ctrlq (e : EState) (qt : Int) :
    editorProcessKeypress e qt (.key (CTRL_KEY 'q')) =
      if e.dirty ≠ 0 ∧ 0 < qt then ({ e with status := .quitWarning qt }, qt - 1, false)
      else (e, qt, true) := rfl

/-- Pressing Ctrl-Q on a dirty buffer while the counter is positive only
warns and decrements the counter (the early `return` skips the reset). -/
theorem quit_press_warns (e : EState) (qt : Int) (hd : e.dirty ≠ 0) (hqt : 0 < qt) :
    stepEv (e, qt) (.key (CTRL_KEY 'q')) =
      ({ editorScroll e with status := .quitWarning qt }, qt - 1, false) := by
  have hd' : (editorScroll e).dirty ≠ 0 := by rw [editorScroll_dirty]; exact hd
  show editorProcessKeypress (editorScroll e) qt (.key (CTRL_KEY 'q')) = _
  rw [processKeypress_ctrlq, if_pos ⟨hd', hqt⟩]

/-- Pressing Ctrl-Q when the buffer is clean or the counter is exhausted
reaches `exit(0)`. -/
theorem quit_press_exits (e : EState) (qt : Int) (h : ¬ ((editorScroll e).dirty ≠ 0 ∧ 0 < qt)) :
    (stepEv (e, qt) (.key (CTRL_KEY 'q'))).2.2 = true := by
  show (editorProcessKeypress (editorScroll e) qt (.key (CTRL_KEY 'q'))).2.2 = true
  rw [processKeypress_ctrlq, if_neg h]

/-- Repeated Ctrl-Q presses on a dirty buffer: after `k ≤ qt` presses the
editor has not exited, the counter is `qt - k`, and the buffer is still
dirty. -/
theorem iterKey_quit (e : EState) (qt : Int) (hd : e.dirty ≠ 0) :
    ∀ k : Nat, (k : Int) ≤ qt →
      (iterKey e qt (CTRL_KEY 'q') k).2.1 = qt - k ∧
        (iterKey e qt (CTRL_KEY 'q') k).2.2 = false ∧
        (iterKey e qt (CTRL_KEY 'q') k).1.dirty = e.dirty
  | 0, _ => by simp [iterKey]
  | k + 1, hk => by
    have ih := iterKey_quit e qt hd k (by push_cast at hk ⊢; omega)
    have hdk : (iterKey e qt (CTRL_KEY 'q') k).1.dirty ≠ 0 := by rw [ih.2.2]; exact hd
    have hpos : 0 < qt - k := by push_cast at hk ⊢; omega
    simp only [iterKey]
    rw [ih.1, quit_press_warns _ _ hdk hpos]
    refine ⟨by push_cast; ring, rfl, ?_⟩
    show (editorScroll (iterKey e qt (CTRL_KEY 'q') k).1).dirty = e.dirty
    rw [editorScroll_dirty, ih.2.2]

/-- C4 counterexample input: a dirty one-row buffer. -/
def dirtyState : EState :=
  { cursor_x := 0
    cursor_y := 0
    render_x := 0
    row_offset := 0
    col_offset := 0
    screen_rows := 5
    screen_cols := 10
    rows := [['a']]
    dirty := 1
    file_name := none
    status := .empty }

/-- C4 as stated is false: with a dirty buffer and N = TTE_QUIT_TIMES = 3,
the 3rd consecutive Ctrl-Q press does NOT exit the editor (the counter is
merely decremented to 0; only the 4th press exits). -/
theorem quit_debounce_counterexample :
    (iterKey dirtyState TTE_QUIT_TIMES (CTRL_KEY 'q') 3).2.2 = false := by decide

/-- C4, amended: with a dirty buffer and N = TTE_QUIT_TIMES = 3, pressing
Ctrl-Q up to N times in a row does not exit the editor, the (N+1)-th press
exits, and any event other than a Ctrl-Q key press resets the debounce
counter to its initial value N. -/
theorem quit_debounce (e : EState) (hd : e.dirty ≠ 0) :
    (∀ k : Nat, k ≤ 3 → (iterKey e TTE_QUIT_TIMES (CTRL_KEY 'q') k).2.2 = false) ∧
      (iterKey e TTE_QUIT_TIMES (CTRL_KEY 'q') 4).2.2 = true ∧
      (∀ (e' : EState) (qt : Int) (ev : EdEvent), (∀ c, ev = .key c → c ≠ CTRL_KEY 'q') →
        (stepEv (e', qt) ev).2.1 = TTE_QUIT_TIMES) := by
  refine ⟨?_, ?_, ?_⟩
  · intro k hk
    refine (iterKey_quit e TTE_QUIT_TIMES hd k ?_).2.1
    have h3 : TTE_QUIT_TIMES = 3 := rfl
    rw [h3]
    exact_mod_cast hk
  · have h3 := iterKey_quit e TTE_QUIT_TIMES hd 3 (by norm_num [TTE_QUIT_TIMES])
    rw [show iterKey e TTE_QUIT_TIMES (CTRL_KEY 'q') 4 =
        stepEv ((iterKey e TTE_QUIT_TIMES (CTRL_KEY 'q') 3).1,
          (iterKey e TTE_QUIT_TIMES (CTRL_KEY 'q') 3).2.1) (EdEvent.key (CTRL_KEY 'q')) from rfl,
      h3.1]
    apply quit_press_exits
    intro hcon
    have h30 : TTE_QUIT_TIMES - ((3 : Nat) : Int) = 0 := by norm_num [TTE_QUIT_TIMES]
    omega
  · intro e' qt ev hev
    cases ev with
    | save pr oOk tOk w => rfl
    | search ks => rfl
    | key c =>
      have hc : c ≠ CTRL_KEY 'q' := hev c rfl
      show (editorProcessKeypress (editorScroll e') qt (.key c)).2.1 = TTE_QUIT_TIMES
      simp only [editorProcessKeypress]
      repeat first | rfl | (exfalso; apply hc; assumption) | split

/-- Witness for the amended C4 at the concrete dirty state. -/
theorem quit_debounce_witness :
    dirtyState.dirty ≠ 0 ∧ (iterKey dirtyState TTE_QUIT_TIMES (CTRL_KEY 'q') 4).2.2 = true :=
  ⟨by decide, (quit_debounce dirtyState (by decide)).2.1⟩

/-! Save-then-load round trip (editorRowsToString / editorOpen). -/

/-- A serialized row followed by a newline is cut by the getline chunking
exactly at that newline, provided the row itself contains no newline byte. -/
theorem getlinesGo_cons_ne (c : Char) (t acc : List Char) (hc : c ≠ '\n') :
    getlinesGo (c :: t) acc = getlinesGo t (c :: acc) := by
  simp [getlinesGo, hc]

theorem getlinesGo_append (r : List Char) (s acc : List Char) (hr : '\n' ∉ r) :
    getlinesGo (r ++ '\n' :: s) acc = ((acc.reverse ++ r) ++ ['\n']) :: getlinesGo s [] := by
  induction r generalizing acc with
  | nil => simp [getlinesGo]
  | cons c r' ih =>
    have hc : c ≠ '\n' := fun h => hr (h ▸ List.mem_cons_self c r')
    have hr' : '\n' ∉ r' := fun h => hr (List.mem_cons_of_mem c h)
    rw [List.cons_append, getlinesGo_cons_ne c _ _ hc, ih (c :: acc) hr']
    simp

/-- Stripping one trailing newline undoes the newline appended per row. -/
theorem stripNewline_append (r : List Char) : stripNewline (r ++ ['\n']) = r := by
  unfold stripNewline
  rw [if_pos ⟨by simp, Or.inl (List.getLast?_concat r)⟩]
  exact List.dropLast_concat

/-- C6: serializing any buffer (no row of which contains a newline byte, the
row invariant of the data model) with editorRowsToString and re-loading the
byte stream as editorOpen does yields exactly the original rows. -/
theorem save_load_roundtrip (rows : List (List Char)) (h : ∀ r ∈ rows, '\n' ∉ r) :
    editorOpenRows (editorRowsToString rows) = rows := by
  induction rows with
  | nil => rfl
  | cons r rest ih =>
    have hr : '\n' ∉ r := h r (List.mem_cons_self r rest)
    have hrest : ∀ x ∈ rest, '\n' ∉ x := fun x hx => h x (List.mem_cons_of_mem r hx)
    show ((getlines (r ++ '\n' :: editorRowsToString rest)).map stripNewline) = r :: rest
    unfold getlines
    rw [getlinesGo_append r _ [] hr]
    simp only [List.reverse_nil, List.nil_append, List.map_cons, stripNewline_append]
    exact congrArg (r :: ·) (ih hrest)

/-- Witness for C6 at a concrete buffer containing an empty row and a row
with a tab. -/
theorem save_load_roundtrip_witness :
    (∀ r ∈ [['f', 'o', 'o'], [], ['\t', 'b', '\r']], '\n' ∉ r) ∧
      editorOpenRows (editorRowsToString [['f', 'o', 'o'], [], ['\t', 'b', '\r']]) =
        [['f', 'o', 'o'], [], ['\t', 'b', '\r']] :=
  ⟨by decide, save_load_roundtrip [['f', 'o', 'o'], [], ['\t', 'b', '\r']] (by decide)⟩

/-! Save error handling (editorSave). -/

/-- The success condition of editorSave: a file name is available (either
already set or supplied by the prompt) and the open, truncate and write
steps all succeed, the write being complete. -/
def saveSucceeds (e : EState) (promptRes : Option (List Char)) (openOk truncOk : Bool)
    (written : Int) : Prop :=
  (e.file_name ≠ none ∨ promptRes ≠ none) ∧ openOk = true ∧ truncOk = true ∧
    written = ((editorRowsToString e.rows).length : Int)

instance (e pr oOk tOk w) : Decidable (saveSucceeds e pr oOk tOk w) := by
  unfold saveSucceeds
  infer_instance

/-- C9: editorSave never touches the row buffer; when the save does not run
to completion (no file name, failed open, failed truncate, or short write)
the dirty counter is unchanged and the failure is reported via the status
message; and the dirty counter can become 0 only if it already was 0 or the
save fully succeeded. -/
theorem save_all_or_nothing (e : EState) (pr : Option (List Char)) (oOk tOk : Bool) (w : Int) :
    (editorSave e pr oOk tOk w).rows = e.rows ∧
      (¬ saveSucceeds e pr oOk tOk w →
        (editorSave e pr oOk tOk w).dirty = e.dirty ∧
          ((editorSave e pr oOk tOk w).status = .saveError ∨
            (editorSave e pr oOk tOk w).status = .saveAborted)) ∧
      ((editorSave e pr oOk tOk w).dirty = 0 → e.dirty = 0 ∨ saveSucceeds e pr oOk tOk w) := by
  unfold editorSave saveSucceeds
  rcases hfn : e.file_name with _ | f
  · rcases hpr : pr with _ | g
    · simp [hfn, hpr]
    · simp only [hfn, hpr]
      cases oOk <;> cases tOk <;>
        by_cases hw : w = ((editorRowsToString e.rows).length : Int) <;>
          simp [hw] <;> tauto
  · simp only [hfn]
    cases oOk <;> cases tOk <;>
      by_cases hw : w = ((editorRowsToString e.rows).length : Int) <;>
        simp [hw] <;> tauto

/-- C9 witness input: a dirty named buffer whose save fails at the open
step. -/
def saveWitnessState : EState :=
  { cursor_x := 0
    cursor_y := 0
    render_x := 0
    row_offset := 0
    col_offset := 0
    screen_rows := 5
    screen_cols := 10
    rows := [['h', 'i']]
    dirty := 2
    file_name := some ['t']
    status := .empty }

/-- Witness for C9: a failed open leaves rows and dirty unchanged and sets
the error status. -/
theorem save_all_or_nothing_witness :
    ¬ saveSucceeds saveWitnessState none false false 0 ∧
      ((editorSave saveWitnessState none false false 0).dirty = saveWitnessState.dirty ∧
        ((editorSave saveWitnessState none false false 0).status = .saveError ∨
          (editorSave saveWitnessState none false false 0).status = .saveAborted)) :=
  ⟨by decide, (save_all_or_nothing saveWitnessState none false false 0).2.1 (by decide)⟩

/-! The search scenario (editorSearchCallback / editorSearch). -/

/-- The C7 scenario state: buffer ["foo", "bar baz", "qux"]. -/
def searchState : EState :=
  { cursor_x := 0
    cursor_y := 0
    render_x := 0
    row_offset := 0
    col_offset := 0
    screen_rows := 10
    screen_cols := 20
    rows := [['f', 'o', 'o'], ['b', 'a', 'r', ' ', 'b', 'a', 'z'], ['q', 'u', 'x']]
    dirty := 0
    file_name := none
    status := .empty }

/-- C7: on the buffer ["foo", "bar baz", "qux"] the search callback for
query "ba" moves the cursor to row 1, column 0 (and forces row_offset to
num_rows); and a search prompt cancelled with Escape (here after typing
"ba") restores cursor_x, cursor_y, row_offset and col_offset to their exact
pre-search values, for every starting state. -/
theorem search_scenario :
    ((editorSearchCallback searchState ['b', 'a'] 97).cursor_y = 1 ∧
      (editorSearchCallback searchState ['b', 'a'] 97).cursor_x = 0 ∧
      (editorSearchCallback searchState ['b', 'a'] 97).row_offset = numRows searchState) ∧
    ∀ e : EState,
      (editorSearch e [98, 97, 27]).cursor_x = e.cursor_x ∧
        (editorSearch e [98, 97, 27]).cursor_y = e.cursor_y ∧
        (editorSearch e [98, 97, 27]).row_offset = e.row_offset ∧
        (editorSearch e [98, 97, 27]).col_offset = e.col_offset :=
  ⟨by decide, fun e => ⟨rfl, rfl, rfl, rfl⟩⟩

/-! Prompt termination (editorPrompt). -/

/-- The calls log of a non-terminating editorPrompt iteration only prepends
entries, so the last entry (and non-emptiness) of the recursive run is
preserved. -/
theorem calls_prepend_getLast (L R : List (List Char × Int)) (p : List Char × Int)
    (h : R ≠ [] ∧ R.getLast? = some p) : (L ++ R) ≠ [] ∧ (L ++ R).getLast? = some p := by
  constructor
  · intro hc
    exact h.1 (List.append_eq_nil.mp hc).2
  · rw [List.getLast?_append_of_ne_nil L h.1]
    exact h.2

/-- Case analysis of a finite editorPrompt run: either the key list ran out
with the loop still active, or the prompt was cancelled with Escape and
returned NULL, or Enter returned the (necessarily non-empty) final buffer.
In both terminating cases the status message is cleared before the callback
is applied with the terminating key, and when a callback is present its last
recorded invocation carries the final buffer and the terminating key. -/
theorem editorPrompt_cases (cb : Option (EState → List Char → Int → EState)) :
    ∀ (ks : List Int) (e : EState) (buf : List Char),
      (editorPrompt cb e buf ks).outcome = none ∨
      ((editorPrompt cb e buf ks).outcome = some none ∧
        (∃ e1 : EState, e1.status = .empty ∧
          (editorPrompt cb e buf ks).state = applyCb cb e1 (editorPrompt cb e buf ks).buf 27) ∧
        (cb.isSome = true → (editorPrompt cb e buf ks).calls ≠ [] ∧
          (editorPrompt cb e buf ks).calls.getLast? =
            some ((editorPrompt cb e buf ks).buf, 27))) ∨
      ((editorPrompt cb e buf ks).outcome = some (some (editorPrompt cb e buf ks).buf) ∧
        (editorPrompt cb e buf ks).buf ≠ [] ∧
        (∃ e1 : EState, e1.status = .empty ∧
          (editorPrompt cb e buf ks).state = applyCb cb e1 (editorPrompt cb e buf ks).buf 13) ∧
        (cb.isSome = true → (editorPrompt cb e buf ks).calls ≠ [] ∧
          (editorPrompt cb e buf ks).calls.getLast? =
            some ((editorPrompt cb e buf ks).buf, 13)))
  | [], e, buf => Or.inl rfl
  | c :: ks, e, buf => by
    simp only [editorPrompt]
    by_cases h1 : c = DEL_KEY ∨ c = CTRL_KEY 'h' ∨ c = BACKSPACE
    · rw [if_pos h1]
      rcases editorPrompt_cases cb ks
          (applyCb cb (editorScroll { e with status := .promptMsg buf })
            (if buf ≠ [] then buf.dropLast else buf) c)
          (if buf ≠ [] then buf.dropLast else buf) with h | ⟨ho, hs, hc⟩ | ⟨ho, hb, hs, hc⟩
      · exact Or.inl h
      · exact Or.inr (Or.inl ⟨ho, hs, fun hcb => calls_prepend_getLast _ _ _ (hc hcb)⟩)
      · exact Or.inr (Or.inr ⟨ho, hb, hs, fun hcb => calls_prepend_getLast _ _ _ (hc hcb)⟩)
    · rw [if_neg h1]
      by_cases h2 : c = 27
      · subst h2
        rw [if_pos rfl]
        refine Or.inr (Or.inl ⟨rfl, ⟨_, rfl, rfl⟩, fun hcb => ?_⟩)
        match cb, hcb with
        | some f, _ => exact ⟨by simp [cbLog], by simp [cbLog]⟩
      · rw [if_neg h2]
        by_cases h3 : c = 13
        · subst h3
          rw [if_pos rfl]
          by_cases hb : buf ≠ []
          · rw [if_pos hb]
            refine Or.inr (Or.inr ⟨rfl, hb, ⟨_, rfl, rfl⟩, fun hcb => ?_⟩)
            match cb, hcb with
            | some f, _ => exact ⟨by simp [cbLog], by simp [cbLog]⟩
          · rw [if_neg hb]
            rcases editorPrompt_cases cb ks
                (applyCb cb (editorScroll { e with status := .promptMsg buf }) buf 13)
                buf with h | ⟨ho, hs, hc⟩ | ⟨ho, hb', hs, hc⟩
            · exact Or.inl h
            · exact Or.inr (Or.inl ⟨ho, hs, fun hcb => calls_prepend_getLast _ _ _ (hc hcb)⟩)
            · exact Or.inr (Or.inr ⟨ho, hb', hs, fun hcb => calls_prepend_getLast _ _ _ (hc hcb)⟩)
        · rw [if_neg h3]
          rcases editorPrompt_cases cb ks
              (applyCb cb (editorScroll { e with status := .promptMsg buf })
                (if ¬ iscntrl c then buf ++ [intToChar c] else buf) c)
              (if ¬ iscntrl c then buf ++ [intToChar c] else buf) with
            h | ⟨ho, hs, hc⟩ | ⟨ho, hb', hs, hc⟩
          · exact Or.inl h
          · exact Or.inr (Or.inl ⟨ho, hs, fun hcb => calls_prepend_getLast _ _ _ (hc hcb)⟩)
          · exact Or.inr (Or.inr ⟨ho, hb', hs, fun hcb => calls_prepend_getLast _ _ _ (hc hcb)⟩)

/-- C10: editorPrompt never returns an empty string: a run terminates only
by returning NULL on Escape or the non-empty buffer on Enter, in both cases
clearing the status message before handing the terminating key to the
callback (when present, its last invocation carries the terminating key);
and Enter on an empty buffer leaves the prompt active (the run continues
exactly as the run on the remaining keys). -/
theorem prompt_termination (cb : Option (EState → List Char → Int → EState)) (e : EState)
    (buf : List Char) (ks : List Int) :
    ((editorPrompt cb e buf ks).outcome = none ∨
      ((editorPrompt cb e buf ks).outcome = some none ∧
        (∃ e1 : EState, e1.status = .empty ∧
          (editorPrompt cb e buf ks).state = applyCb cb e1 (editorPrompt cb e buf ks).buf 27) ∧
        (cb.isSome = true → (editorPrompt cb e buf ks).calls ≠ [] ∧
          (editorPrompt cb e buf ks).calls.getLast? =
            some ((editorPrompt cb e buf ks).buf, 27))) ∨
      ((editorPrompt cb e buf ks).outcome = some (some (editorPrompt cb e buf ks).buf) ∧
        (editorPrompt cb e buf ks).buf ≠ [] ∧
        (∃ e1 : EState, e1.status = .empty ∧
          (editorPrompt cb e buf ks).state = applyCb cb e1 (editorPrompt cb e buf ks).buf 13) ∧
        (cb.isSome = true → (editorPrompt cb e buf ks).calls ≠ [] ∧
          (editorPrompt cb e buf ks).calls.getLast? =
            some ((editorPrompt cb e buf ks).buf, 13)))) ∧
    (editorPrompt cb e [] (13 :: ks)).outcome =
      (editorPrompt cb
        (applyCb cb (editorScroll { e with status := .promptMsg [] }) [] 13) [] ks).outcome :=
  ⟨editorPrompt_cases cb ks e buf, rfl⟩

/-! Indexed list operations over an `A ++ mid ++ B` decomposition. -/

theorem listGetD_append_add {α : Type} (A l : List α) (n : Nat) (d : α) :
    (A ++ l).getD (A.length + n) d = l.getD n d := by
  induction A with
  | nil => simp
  | cons a A' ih =>
    rw [List.cons_append, show (a :: A').length + n = (A'.length + n) + 1 from by simp; omega]
    exact ih

theorem listInsertIdx_append_add {α : Type} (A l : List α) (n : Nat) (x : α) :
    (A ++ l).insertIdx (A.length + n) x = A ++ l.insertIdx n x := by
  induction A with
  | nil => simp
  | cons a A' ih =>
    rw [List.cons_append, show (a :: A').length + n = (A'.length + n) + 1 from by simp; omega]
    show a :: (A' ++ l).insertIdx (A'.length + n) x = a :: (A' ++ l.insertIdx n x)
    rw [ih]

theorem listSet_append_add {α : Type} (A l : List α) (n : Nat) (x : α) :
    (A ++ l).set (A.length + n) x = A ++ l.set n x := by
  induction A with
  | nil => simp
  | cons a A' ih =>
    rw [List.cons_append, show (a :: A').length + n = (A'.length + n) + 1 from by simp; omega]
    show a :: (A' ++ l).set (A'.length + n) x = a :: (A' ++ l.set n x)
    rw [ih]

theorem listEraseIdx_append_add {α : Type} (A l : List α) (n : Nat) :
    (A ++ l).eraseIdx (A.length + n) = A ++ l.eraseIdx n := by
  induction A with
  | nil => simp
  | cons a A' ih =>
    rw [List.cons_append, show (a :: A').length + n = (A'.length + n) + 1 from by simp; omega]
    show a :: (A' ++ l).eraseIdx (A'.length + n) = a :: (A' ++ l.eraseIdx n)
    rw [ih]

theorem rowAt_decomp {rows : List (List Char)} (A B : List (List Char)) (r : List Char)
    (h : rows = A ++ r :: B) : rowAt rows (A.length : Nat) = r := by
  subst h
  unfold rowAt
  rw [if_pos (Int.natCast_nonneg _), Int.toNat_natCast,
    show A.length = A.length + 0 from rfl, listGetD_append_add]
  rfl

/-! The split/join round trip (editorInsertNewline then editorDelChar). -/

theorem rowAt_natCast (rows : List (List Char)) (n : Nat) :
    rowAt rows (n : Int) = rows.getD n [] := by
  unfold rowAt
  rw [if_pos (Int.natCast_nonneg _), Int.toNat_natCast]

/-- editorInsertNewline on a cursor at column `k` of the row at index
`A.length` splits that row: both the `cursor_x == 0` fast path (`k = 0`) and
the general split path leave `take k :: drop k` in the row's place and put
the cursor at column 0 of the line below. -/
theorem insertNewline_fields (A B : List (List Char)) (r : List Char) (k : Nat)
    (e : EState) (he : e.rows = A ++ r :: B) (hy : e.cursor_y = (A.length : Int))
    (hx : e.cursor_x = (k : Int)) :
    (editorInsertNewline e).rows = A ++ r.take k :: r.drop k :: B ∧
      (editorInsertNewline e).cursor_y = (A.length : Int) + 1 ∧
      (editorInsertNewline e).cursor_x = 0 := by
  have hn : numRows e = ((A.length + (B.length + 1) : Nat) : Int) := by
    rw [numRows, he]; simp
  have hguard0 : ¬ (e.cursor_y < 0 ∨ numRows e < e.cursor_y) := by
    rw [hn, hy]; push_cast; omega
  have hguard1 : ¬ (e.cursor_y + 1 < 0 ∨ numRows e < e.cursor_y + 1) := by
    rw [hn, hy]; push_cast; omega
  unfold editorInsertNewline editorInsertRow
  dsimp only
  by_cases h0 : e.cursor_x = 0
  · have hk0 : k = 0 := by rw [h0] at hx; exact_mod_cast hx.symm
    subst hk0
    rw [if_pos h0, if_neg hguard0]
    dsimp only
    refine ⟨?_, by rw [hy], rfl⟩
    rw [he, hy, Int.toNat_natCast, show A.length = A.length + 0 from rfl,
      listInsertIdx_append_add]
    simp
  · have hrow : rowAt e.rows e.cursor_y = r := by
      rw [hy, rowAt_natCast, he, show A.length = A.length + 0 from rfl, listGetD_append_add]
      rfl
    rw [if_neg h0, if_neg hguard1]
    dsimp only
    refine ⟨?_, by rw [hy], rfl⟩
    rw [hrow, hx, Int.toNat_natCast, hy,
      show ((A.length : Int) + 1).toNat = A.length + 1 from by omega,
      show (A.length : Int).toNat = A.length from by omega,
      he, listInsertIdx_append_add A (r :: B) 1 (r.drop k),
      show (r :: B).insertIdx 1 (r.drop k) = r :: r.drop k :: B from rfl,
      show A.length = A.length + 0 from rfl, listSet_append_add]
    rfl

/-- editorDelChar at column 0 of the row at index `A.length + 1` joins it
onto the previous row and moves the cursor to the join point. -/
theorem delChar_join_fields (A B : List (List Char)) (r1 r2 : List Char) (e : EState)
    (he : e.rows = A ++ r1 :: r2 :: B) (hy : e.cursor_y = (A.length : Int) + 1)
    (hx : e.cursor_x = 0) :
    (editorDelChar e).rows = A ++ (r1 ++ r2) :: B ∧
      (editorDelChar e).cursor_y = (A.length : Int) ∧
      (editorDelChar e).cursor_x = (r1.length : Int) := by
  have hlen0 : (e.rows.length : Int) = ((A.length + (B.length + 2) : Nat) : Int) := by
    rw [he]; push_cast; simp; omega
  have hprev : rowAt e.rows (e.cursor_y - 1) = r1 := by
    rw [hy, show (A.length : Int) + 1 - 1 = ((A.length : Nat) : Int) from by omega,
      rowAt_natCast, he, show A.length = A.length + 0 from rfl, listGetD_append_add]
    rfl
  have hcur : rowAt e.rows e.cursor_y = r2 := by
    rw [hy, show (A.length : Int) + 1 = ((A.length + 1 : Nat) : Int) from by push_cast; ring,
      rowAt_natCast, he, listGetD_append_add]
    rfl
  have c1 : ¬ (e.cursor_y = numRows e) := by
    rw [numRows, hy, hlen0]; push_cast; omega
  have c2 : ¬ (e.cursor_x = 0 ∧ e.cursor_y = 0) := by
    rw [hy]; rintro ⟨-, hcon⟩
    have : (0 : Int) ≤ (A.length : Int) := Int.natCast_nonneg _
    omega
  have c3 : ¬ (0 < e.cursor_x) := by rw [hx]; omega
  have cguard : ∀ ee : EState, ee.rows.length = e.rows.length →
      ¬ (e.cursor_y < 0 ∨ numRows ee ≤ e.cursor_y) := by
    intro ee hl
    rw [numRows, hl, hlen0, hy]
    push_cast
    omega
  unfold editorDelChar editorRowAppendString editorDelRow rowLenAt
  dsimp only
  rw [if_neg c1, if_neg c2, if_neg c3, if_neg (cguard _ (by simp))]
  dsimp only
  refine ⟨?_, by rw [hy]; omega, by rw [hprev]⟩
  rw [hprev, hcur, hy,
    show ((A.length : Int) + 1 - 1).toNat = A.length + 0 from by omega,
    show ((A.length : Int) + 1).toNat = A.length + 1 from by omega,
    he, listSet_append_add,
    show (r1 :: r2 :: B).set 0 (r1 ++ r2) = (r1 ++ r2) :: r2 :: B from rfl,
    listEraseIdx_append_add A ((r1 ++ r2) :: r2 :: B) 1]
  rfl

/-- C5: with the cursor at column `k` (0 ≤ k ≤ size) of a real row,
editorInsertNewline followed immediately by editorDelChar restores the
original row sequence exactly and returns the cursor to the same row at
column `k`. -/
theorem split_join_roundtrip (A B : List (List Char)) (r : List Char) (k : Nat)
    (hk : k ≤ r.length) (e : EState) (he : e.rows = A ++ r :: B)
    (hy : e.cursor_y = (A.length : Int)) (hx : e.cursor_x = (k : Int)) :
    (editorDelChar (editorInsertNewline e)).rows = e.rows ∧
      (editorDelChar (editorInsertNewline e)).cursor_y = e.cursor_y ∧
      (editorDelChar (editorInsertNewline e)).cursor_x = (k : Int) := by
  obtain ⟨h1, h2, h3⟩ := insertNewline_fields A B r k e he hy hx
  obtain ⟨g1, g2, g3⟩ := delChar_join_fields A B (r.take k) (r.drop k)
    (editorInsertNewline e) h1 h2 h3
  refine ⟨?_, ?_, ?_⟩
  · rw [g1, List.take_append_drop, he]
  · rw [g2, hy]
  · rw [g3, List.length_take, min_eq_left hk]

/-- C5 witness input: cursor at column 1 of the first of two rows. -/
def splitWitnessState : EState :=
  { cursor_x := 1
    cursor_y := 0
    render_x := 0
    row_offset := 0
    col_offset := 0
    screen_rows := 5
    screen_cols := 10
    rows := [['a', 'b', 'c'], ['z']]
    dirty := 0
    file_name := none
    status := .empty }

/-- Witness for C5 at a concrete two-row buffer, k = 1. -/
theorem split_join_roundtrip_witness :
    (editorDelChar (editorInsertNewline splitWitnessState)).rows = splitWitnessState.rows ∧
      (editorDelChar (editorInsertNewline splitWitnessState)).cursor_y =
        splitWitnessState.cursor_y ∧
      (editorDelChar (editorInsertNewline splitWitnessState)).cursor_x = ((1 : Nat) : Int) :=
  split_join_roundtrip [] [['z']] ['a', 'b', 'c'] 1 (by decide) splitWitnessState rfl rfl rfl

/-! The cursor-bounds invariant and its preservation by the key handlers. -/

theorem listGetD_set_self {α : Type} (l : List α) (n : Nat) (z d : α) (h : n < l.length) :
    (l.set n z).getD n d = z := by
  induction l generalizing n with
  | nil => simp at h
  | cons a t ih =>
    cases n with
    | zero => rfl
    | succ m => exact ih m (by simpa using h)

theorem listGetD_eraseIdx_lt {α : Type} (l : List α) (n m : Nat) (d : α) (h : n < m) :
    (l.eraseIdx m).getD n d = l.getD n d := by
  induction l generalizing n m with
  | nil => rfl
  | cons a t ih =>
    cases m with
    | zero => omega
    | succ m' =>
      cases n with
      | zero => rfl
      | succ n' => exact ih n' m' (by omega)

theorem listGetD_insertIdx_self {α : Type} (l : List α) (n : Nat) (x d : α)
    (h : n ≤ l.length) : (l.insertIdx n x).getD n d = x := by
  induction l generalizing n with
  | nil =>
    have : n = 0 := by simpa using h
    subst this
    rfl
  | cons a t ih =>
    cases n with
    | zero => rfl
    | succ m => exact ih m (by simpa using h)

/-- The state invariant maintained by the key handlers (with PageDown and
window-resize handling excluded): the cursor stays inside the buffer, the
viewport offsets stay non-negative, and the screen keeps positive size.  The
first five conjuncts are the cursor bounds of the claim; the rest are
auxiliary facts the preservation proof needs. -/
def CursorInv (e : EState) : Prop :=
  0 ≤ e.cursor_x ∧ 0 ≤ e.cursor_y ∧ e.cursor_y ≤ numRows e ∧
    (e.cursor_y < numRows e → e.cursor_x ≤ rowLenAt e.rows e.cursor_y) ∧
    (e.cursor_y = numRows e → e.cursor_x = 0) ∧
    0 ≤ e.row_offset ∧ 0 ≤ e.col_offset ∧ 1 ≤ e.screen_rows ∧ 1 ≤ e.screen_cols

theorem rowLenAt_nonneg (rows : List (List Char)) (i : Int) : 0 ≤ rowLenAt rows i :=
  Int.natCast_nonneg _

theorem editorScroll_inv (e : EState) (h : CursorInv e) : CursorInv (editorScroll e) := by
  obtain ⟨h1, h2, h3, h4, h5, h6, h7, h8, h9⟩ := h
  have hoff := editorScroll_offsets_nonneg e h6 h7 h2
  exact ⟨h1, h2, h3, h4, h5, hoff.1, hoff.2, h8, h9⟩

/-- After editorScroll the vertical offset does not exceed the cursor row
(used by the PageUp handler, which runs after the refresh scroll). -/
theorem editorScroll_ro_le (e : EState) (hsr : 1 ≤ e.screen_rows) :
    (editorScroll e).row_offset ≤ e.cursor_y :=
  (editorScroll_row_bounds e hsr).1

/-- The arrow switch keeps the cursor coordinates in the weak range
`cursor_x ≥ 0, 0 ≤ cursor_y ≤ num_rows` and changes nothing but the cursor. -/
theorem moveSwitch_bounds (e : EState) (key : Int)
    (hx : 0 ≤ e.cursor_x) (hy : 0 ≤ e.cursor_y) (hyn : e.cursor_y ≤ numRows e) :
    (0 ≤ (moveSwitch e key).cursor_x ∧ 0 ≤ (moveSwitch e key).cursor_y ∧
      (moveSwitch e key).cursor_y ≤ numRows (moveSwitch e key)) ∧
    (moveSwitch e key).rows = e.rows ∧
      (moveSwitch e key).row_offset = e.row_offset ∧
      (moveSwitch e key).col_offset = e.col_offset ∧
      (moveSwitch e key).screen_rows = e.screen_rows ∧
      (moveSwitch e key).screen_cols = e.screen_cols := by
  have hnn := rowLenAt_nonneg e.rows (e.cursor_y - 1)
  unfold moveSwitch
  simp only [numRows] at hyn ⊢
  split_ifs <;> refine ⟨⟨?_, ?_, ?_⟩, rfl, rfl, rfl, rfl, rfl⟩ <;> dsimp only <;> omega

/-- The trailing clamp establishes the full invariant from the weak range. -/
theorem moveClamp_inv (e1 : EState)
    (hx : 0 ≤ e1.cursor_x) (hy : 0 ≤ e1.cursor_y) (hyn : e1.cursor_y ≤ numRows e1)
    (hro : 0 ≤ e1.row_offset) (hco : 0 ≤ e1.col_offset)
    (hsr : 1 ≤ e1.screen_rows) (hsc : 1 ≤ e1.screen_cols) :
    CursorInv (moveClamp e1) := by
  have hnn := rowLenAt_nonneg e1.rows e1.cursor_y
  unfold moveClamp CursorInv
  simp only [numRows] at hyn ⊢
  split_ifs <;> (try dsimp only) <;>
    exact ⟨by omega, by omega, by omega, fun hlt => by omega, fun heq => by omega,
      hro, hco, hsr, hsc⟩

/-- editorMoveCursor restores the full invariant from the weak range (the
trailing clamp repairs any out-of-line cursor_x). -/
theorem editorMoveCursor_inv (e : EState) (key : Int)
    (hx : 0 ≤ e.cursor_x) (hy : 0 ≤ e.cursor_y) (hyn : e.cursor_y ≤ numRows e)
    (hro : 0 ≤ e.row_offset) (hco : 0 ≤ e.col_offset)
    (hsr : 1 ≤ e.screen_rows) (hsc : 1 ≤ e.screen_cols) :
    CursorInv (editorMoveCursor e key) := by
  obtain ⟨⟨b1, b2, b3⟩, r1, r2, r3, r4, r5⟩ := moveSwitch_bounds e key hx hy hyn
  exact moveClamp_inv _ b1 b2 b3 (r2 ▸ hro) (r3 ▸ hco) (r4 ▸ hsr) (r5 ▸ hsc)

theorem editorMoveCursor_inv_of_inv (e : EState) (key : Int) (h : CursorInv e) :
    CursorInv (editorMoveCursor e key) := by
  obtain ⟨h1, h2, h3, h4, h5, h6, h7, h8, h9⟩ := h
  exact editorMoveCursor_inv e key h1 h2 h3 h6 h7 h8 h9

theorem timesMove_inv (key : Int) :
    ∀ (n : Nat) (e : EState), CursorInv e → CursorInv (timesMove e key n)
  | 0, e, h => h
  | n + 1, e, h => timesMove_inv key n _ (editorMoveCursor_inv_of_inv e key h)

/-- One PageUp/PageDown move loop starting from the weak range gives the
full invariant as soon as it runs at least once. -/
theorem timesMove_inv_weak (key : Int) (n : Nat) (e : EState) (hn : 1 ≤ n)
    (hx : 0 ≤ e.cursor_x) (hy : 0 ≤ e.cursor_y) (hyn : e.cursor_y ≤ numRows e)
    (hro : 0 ≤ e.row_offset) (hco : 0 ≤ e.col_offset)
    (hsr : 1 ≤ e.screen_rows) (hsc : 1 ≤ e.screen_cols) :
    CursorInv (timesMove e key n) := by
  cases n with
  | zero => omega
  | succ m =>
    exact timesMove_inv key m _ (editorMoveCursor_inv e key hx hy hyn hro hco hsr hsc)

theorem editorInsertRow_fields (e : EState) (at_ : Int) (s : List Char) :
    (editorInsertRow e at_ s).cursor_x = e.cursor_x ∧
      (editorInsertRow e at_ s).cursor_y = e.cursor_y ∧
      (editorInsertRow e at_ s).row_offset = e.row_offset ∧
      (editorInsertRow e at_ s).col_offset = e.col_offset ∧
      (editorInsertRow e at_ s).screen_rows = e.screen_rows ∧
      (editorInsertRow e at_ s).screen_cols = e.screen_cols := by
  unfold editorInsertRow
  split_ifs <;> exact ⟨rfl, rfl, rfl, rfl, rfl, rfl⟩

theorem editorInsertRow_numRows (e : EState) (at_ : Int) (s : List Char)
    (h : ¬ (at_ < 0 ∨ numRows e < at_)) :
    numRows (editorInsertRow e at_ s) = numRows e + 1 := by
  push_neg at h
  have hle : at_.toNat ≤ e.rows.length := by
    have := h.2
    simp only [numRows] at this
    omega
  unfold editorInsertRow
  rw [if_neg (by simp only [numRows]; push_neg; omega)]
  simp only [numRows]
  rw [List.length_insertIdx _ _ hle]
  push_cast
  ring

theorem editorInsertRow_rows (e : EState) (at_ : Int) (s : List Char)
    (h : ¬ (at_ < 0 ∨ numRows e < at_)) :
    (editorInsertRow e at_ s).rows = e.rows.insertIdx at_.toNat s := by
  unfold editorInsertRow
  rw [if_neg h]

theorem editorInsertNewline_inv (e : EState) (h : CursorInv e) :
    CursorInv (editorInsertNewline e) := by
  obtain ⟨h1, h2, h3, h4, h5, h6, h7, h8, h9⟩ := h
  unfold editorInsertNewline
  dsimp only
  by_cases h0 : e.cursor_x = 0
  · rw [if_pos h0]
    have hg : ¬ (e.cursor_y < 0 ∨ numRows e < e.cursor_y) := by omega
    have hnum := editorInsertRow_numRows e e.cursor_y [] hg
    obtain ⟨f1, f2, f3, f4, f5, f6⟩ := editorInsertRow_fields e e.cursor_y []
    unfold CursorInv
    dsimp only
    simp only [numRows] at hnum h3 ⊢
    refine ⟨le_refl 0, by rw [f2]; omega, by rw [f2]; omega,
      fun _ => rowLenAt_nonneg _ _, fun _ => by trivial,
      by rw [f3]; exact h6, by rw [f4]; exact h7, by rw [f5]; exact h8, by rw [f6]; exact h9⟩
  · have hyn : e.cursor_y < numRows e := by
      rcases lt_or_eq_of_le h3 with hlt | heq
      · exact hlt
      · exact absurd (h5 heq) h0
    have hg : ¬ (e.cursor_y + 1 < 0 ∨ numRows e < e.cursor_y + 1) := by omega
    have hnum := editorInsertRow_numRows e (e.cursor_y + 1) (
      (rowAt e.rows e.cursor_y).drop e.cursor_x.toNat) hg
    obtain ⟨f1, f2, f3, f4, f5, f6⟩ := editorInsertRow_fields e (e.cursor_y + 1)
      ((rowAt e.rows e.cursor_y).drop e.cursor_x.toNat)
    rw [if_neg h0]
    unfold CursorInv
    dsimp only
    simp only [numRows, List.length_set] at hnum hyn h3 ⊢
    refine ⟨le_refl 0, by rw [f2]; omega, by rw [f2]; omega,
      fun _ => rowLenAt_nonneg _ _, fun _ => by trivial,
      by rw [f3]; exact h6, by rw [f4]; exact h7, by rw [f5]; exact h8, by rw [f6]; exact h9⟩

theorem rowAt_eq_getD (rows : List (List Char)) (i : Int) (h : 0 ≤ i) :
    rowAt rows i = rows.getD i.toNat [] := if_pos h

theorem editorDelChar_inv (e : EState) (h : CursorInv e) : CursorInv (editorDelChar e) := by
  obtain ⟨h1, h2, h3, h4, h5, h6, h7, h8, h9⟩ := h
  unfold editorDelChar
  dsimp only
  by_cases hA : e.cursor_y = numRows e
  · rw [if_pos hA]; exact ⟨h1, h2, h3, h4, h5, h6, h7, h8, h9⟩
  rw [if_neg hA]
  have hylt : e.cursor_y < numRows e := lt_of_le_of_ne h3 hA
  have hxle : e.cursor_x ≤ ((rowAt e.rows e.cursor_y).length : Int) := h4 hylt
  by_cases hB : e.cursor_x = 0 ∧ e.cursor_y = 0
  · rw [if_pos hB]; exact ⟨h1, h2, h3, h4, h5, h6, h7, h8, h9⟩
  rw [if_neg hB]
  simp only [numRows] at hylt h3
  by_cases hC : 0 < e.cursor_x
  · rw [if_pos hC]
    unfold editorRowDelChar
    dsimp only
    rw [if_neg (by push_neg; omega)]
    have hyt : e.cursor_y.toNat < e.rows.length := by omega
    have hrow' : rowAt (e.rows.set e.cursor_y.toNat
          ((rowAt e.rows e.cursor_y).eraseIdx (e.cursor_x - 1).toNat)) e.cursor_y =
        (rowAt e.rows e.cursor_y).eraseIdx (e.cursor_x - 1).toNat := by
      rw [rowAt_eq_getD _ _ h2, listGetD_set_self _ _ _ _ hyt]
    have hlen' : rowLenAt (e.rows.set e.cursor_y.toNat
          ((rowAt e.rows e.cursor_y).eraseIdx (e.cursor_x - 1).toNat)) e.cursor_y =
        ((rowAt e.rows e.cursor_y).length : Int) - 1 := by
      unfold rowLenAt
      rw [hrow', List.length_eraseIdx, if_pos (by omega)]
      push_cast [Nat.cast_sub (by omega : 1 ≤ (rowAt e.rows e.cursor_y).length)]
      omega
    unfold CursorInv
    dsimp only
    simp only [numRows, List.length_set]
    exact ⟨by omega, h2, by omega, fun hlt => by rw [hlen']; omega, fun heq => by omega,
      h6, h7, h8, h9⟩
  · rw [if_neg hC]
    have hx0 : e.cursor_x = 0 := by omega
    have hy0 : 0 < e.cursor_y := by
      push_neg at hB
      have := hB hx0
      omega
    unfold editorRowAppendString editorDelRow
    dsimp only
    rw [if_neg (by simp only [numRows, List.length_set]; omega)]
    have hyt1 : (e.cursor_y - 1).toNat < e.rows.length := by omega
    have hrowPrev : rowAt ((e.rows.set (e.cursor_y - 1).toNat
          (rowAt e.rows (e.cursor_y - 1) ++ rowAt e.rows e.cursor_y)).eraseIdx
            e.cursor_y.toNat) (e.cursor_y - 1) =
        rowAt e.rows (e.cursor_y - 1) ++ rowAt e.rows e.cursor_y := by
      rw [rowAt_eq_getD _ _ (by omega),
        listGetD_eraseIdx_lt _ _ _ _ (by omega),
        listGetD_set_self _ _ _ _ hyt1]
    have hZ : rowLenAt ((e.rows.set (e.cursor_y - 1).toNat
          (rowAt e.rows (e.cursor_y - 1) ++ rowAt e.rows e.cursor_y)).eraseIdx
            e.cursor_y.toNat) (e.cursor_y - 1) =
        ((rowAt e.rows (e.cursor_y - 1)).length : Int) +
          ((rowAt e.rows e.cursor_y).length : Int) := by
      unfold rowLenAt
      rw [hrowPrev, List.length_append]
      push_cast
      ring
    have hlen3 : ((e.rows.set (e.cursor_y - 1).toNat
          (rowAt e.rows (e.cursor_y - 1) ++ rowAt e.rows e.cursor_y)).eraseIdx
            e.cursor_y.toNat).length = e.rows.length - 1 := by
      rw [List.length_eraseIdx, List.length_set, if_pos (by omega)]
    unfold CursorInv
    dsimp only
    simp only [numRows, hlen3]
    have hprevNN : (0 : Int) ≤ ((rowAt e.rows (e.cursor_y - 1)).length : Int) :=
      Int.natCast_nonneg _
    have hj : rowLenAt e.rows (e.cursor_y - 1) =
        ((rowAt e.rows (e.cursor_y - 1)).length : Int) := rfl
    refine ⟨hprevNN, by omega, by omega, fun hlt => by rw [hZ, hj]; omega,
      fun heq => by omega, h6, h7, h8, h9⟩

theorem insertCharCore_inv (E : EState) (c : Int)
    (hx0 : 0 ≤ E.cursor_x) (hy0 : 0 ≤ E.cursor_y) (hylt : E.cursor_y < numRows E)
    (hxle : E.cursor_x ≤ ((rowAt E.rows E.cursor_y).length : Int))
    (hro : 0 ≤ E.row_offset) (hco : 0 ≤ E.col_offset)
    (hsr : 1 ≤ E.screen_rows) (hsc : 1 ≤ E.screen_cols) :
    CursorInv { editorRowInsertChar E E.cursor_y E.cursor_x c with
      cursor_x := (editorRowInsertChar E E.cursor_y E.cursor_x c).cursor_x + 1 } := by
  unfold editorRowInsertChar
  dsimp only
  rw [if_neg (by push_neg; omega)]
  have hyt : E.cursor_y.toNat < E.rows.length := by
    simp only [numRows] at hylt
    omega
  have hrow2 : rowAt (E.rows.set E.cursor_y.toNat
        ((rowAt E.rows E.cursor_y).insertIdx E.cursor_x.toNat (intToChar c))) E.cursor_y =
      (rowAt E.rows E.cursor_y).insertIdx E.cursor_x.toNat (intToChar c) := by
    rw [rowAt_eq_getD _ _ hy0, listGetD_set_self _ _ _ _ hyt]
  have hlen2 : ((rowAt E.rows E.cursor_y).insertIdx E.cursor_x.toNat
      (intToChar c)).length = (rowAt E.rows E.cursor_y).length + 1 :=
    List.length_insertIdx _ _ (by omega)
  have hylt' : E.cursor_y < ((E.rows.length : Nat) : Int) := by
    simp only [numRows] at hylt
    exact hylt
  unfold CursorInv
  dsimp only
  simp only [numRows, List.length_set]
  exact ⟨by omega, hy0, by omega,
    fun hlt => by unfold rowLenAt; rw [hrow2, hlen2]; push_cast; omega,
    fun heq => by omega, hro, hco, hsr, hsc⟩

theorem editorInsertChar_inv (e : EState) (c : Int) (h : CursorInv e) :
    CursorInv (editorInsertChar e c) := by
  obtain ⟨h1, h2, h3, h4, h5, h6, h7, h8, h9⟩ := h
  unfold editorInsertChar
  dsimp only
  by_cases hv : e.cursor_y = numRows e
  · rw [if_pos hv]
    have hg : ¬ (numRows e < 0 ∨ numRows e < numRows e) := by omega
    obtain ⟨f1, f2, f3, f4, f5, f6⟩ := editorInsertRow_fields e (numRows e) []
    have hnum := editorInsertRow_numRows e (numRows e) [] hg
    have hrows := editorInsertRow_rows e (numRows e) [] hg
    have ht : (numRows e).toNat = e.rows.length := by simp [numRows]
    have hrowE : rowAt (editorInsertRow e (numRows e) []).rows
        (editorInsertRow e (numRows e) []).cursor_y = [] := by
      rw [hrows, f2, hv, rowAt_eq_getD _ _ (hv ▸ h2), ht,
        listGetD_insertIdx_self _ _ _ _ (le_refl _)]
    apply insertCharCore_inv
    · rw [f1]; exact h1
    · rw [f2]; exact h2
    · rw [f2, hnum, hv]; omega
    · rw [f1, h5 hv, hrowE]; simp
    · rw [f3]; exact h6
    · rw [f4]; exact h7
    · rw [f5]; exact h8
    · rw [f6]; exact h9
  · rw [if_neg hv]
    have hylt : e.cursor_y < numRows e := lt_of_le_of_ne h3 hv
    exact insertCharCore_inv e c h1 h2 hylt (h4 hylt) h6 h7 h8 h9

theorem rxToCxGo_le (rx : Nat) :
    ∀ (l : List Char) (cur acc : Nat), rxToCxGo rx l cur acc ≤ acc + l.length
  | [], _, acc => le_of_eq rfl
  | c :: t, cur, acc => by
    unfold rxToCxGo
    dsimp only
    split
    · simp
    · have := rxToCxGo_le rx t (stepRx cur c) (acc + 1)
      simp only [List.length_cons]
      omega

theorem editorRowRenderXToCursorX_range (chars : List Char) (rx : Int) :
    0 ≤ editorRowRenderXToCursorX chars rx ∧
      editorRowRenderXToCursorX chars rx ≤ (chars.length : Int) := by
  unfold editorRowRenderXToCursorX
  refine ⟨Int.natCast_nonneg _, ?_⟩
  have := rxToCxGo_le rx.toNat chars 0 0
  omega

theorem findMatch_lt (q : List Char) :
    ∀ (rows : List (List Char)) (p : Nat × Nat), findMatch q rows = some p → p.1 < rows.length
  | [], p, hp => by simp [findMatch] at hp
  | r :: rest, p, hp => by
    unfold findMatch at hp
    revert hp
    split
    · intro hp
      cases hp
      simp
    · intro hp
      simp only [Option.map_eq_some'] at hp
      obtain ⟨p', hp', rfl⟩ := hp
      have := findMatch_lt q rest p' hp'
      simp only [List.length_cons]
      omega

/-- editorSearchCallback preserves the invariant and never touches the rows
or the screen geometry. -/
theorem editorSearchCallback_inv (e : EState) (query : List Char) (key : Int)
    (h : CursorInv e) :
    CursorInv (editorSearchCallback e query key) ∧
      (editorSearchCallback e query key).rows = e.rows ∧
      (editorSearchCallback e query key).screen_rows = e.screen_rows ∧
      (editorSearchCallback e query key).screen_cols = e.screen_cols := by
  obtain ⟨h1, h2, h3, h4, h5, h6, h7, h8, h9⟩ := h
  unfold editorSearchCallback
  split
  · exact ⟨⟨h1, h2, h3, h4, h5, h6, h7, h8, h9⟩, rfl, rfl, rfl⟩
  · split
    · next i off heq =>
      have hi := findMatch_lt query e.rows (i, off) heq
      have hr := editorRowRenderXToCursorX_range (rowAt e.rows ((i : Nat) : Int))
        (((off : Nat) : Nat) : Int)
      refine ⟨?_, rfl, rfl, rfl⟩
      unfold CursorInv
      dsimp only
      simp only [numRows]
      have hlen : rowLenAt e.rows ((i : Nat) : Int) =
          ((rowAt e.rows ((i : Nat) : Int)).length : Int) := rfl
      exact ⟨hr.1, Int.natCast_nonneg _, by omega,
        fun hlt => by rw [hlen]; exact hr.2,
        fun heq2 => by omega,
        Int.natCast_nonneg _, h7, h8, h9⟩
    · exact ⟨⟨h1, h2, h3, h4, h5, h6, h7, h8, h9⟩, rfl, rfl, rfl⟩

/-- An editorPrompt run with the search callback preserves the invariant,
the rows, and the screen geometry. -/
theorem editorPrompt_search_inv :
    ∀ (ks : List Int) (e : EState) (buf : List Char), CursorInv e →
      CursorInv (editorPrompt (some editorSearchCallback) e buf ks).state ∧
        (editorPrompt (some editorSearchCallback) e buf ks).state.rows = e.rows ∧
        (editorPrompt (some editorSearchCallback) e buf ks).state.screen_rows =
          e.screen_rows ∧
        (editorPrompt (some editorSearchCallback) e buf ks).state.screen_cols =
          e.screen_cols
  | [], e, buf, h => ⟨h, rfl, rfl, rfl⟩
  | c :: ks, e, buf, h => by
    have hstat : CursorInv { e with status := StatusMsg.promptMsg buf } := h
    have hscr := editorScroll_inv _ hstat
    have hscrE : CursorInv { editorScroll { e with status := StatusMsg.promptMsg buf } with
        status := StatusMsg.empty } := hscr
    unfold editorPrompt
    dsimp only
    by_cases h1 : c = DEL_KEY ∨ c = CTRL_KEY 'h' ∨ c = BACKSPACE
    · rw [if_pos h1]
      dsimp only
      simp only [applyCb]
      obtain ⟨hcb, hrows, hsr, hsc⟩ := editorSearchCallback_inv
        (editorScroll { e with status := StatusMsg.promptMsg buf })
        (if buf ≠ [] then buf.dropLast else buf) c hscr
      obtain ⟨g1, g2, g3, g4⟩ := editorPrompt_search_inv ks _ _ hcb
      exact ⟨g1, by rw [g2, hrows, editorScroll_rows],
        by rw [g3, hsr, editorScroll_screen_rows],
        by rw [g4, hsc, editorScroll_screen_cols]⟩
    · rw [if_neg h1]
      by_cases h2 : c = 27
      · rw [if_pos h2]
        dsimp only
        simp only [applyCb]
        obtain ⟨hcb, hrows, hsr, hsc⟩ := editorSearchCallback_inv
          { editorScroll { e with status := StatusMsg.promptMsg buf } with
            status := StatusMsg.empty } buf c hscrE
        exact ⟨hcb, by rw [hrows]; rfl, by rw [hsr]; rfl, by rw [hsc]; rfl⟩
      · rw [if_neg h2]
        by_cases h3 : c = 13
        · rw [if_pos h3]
          by_cases hb : buf ≠ []
          · rw [if_pos hb]
            dsimp only
            simp only [applyCb]
            obtain ⟨hcb, hrows, hsr, hsc⟩ := editorSearchCallback_inv
              { editorScroll { e with status := StatusMsg.promptMsg buf } with
                status := StatusMsg.empty } buf c hscrE
            exact ⟨hcb, by rw [hrows]; rfl, by rw [hsr]; rfl, by rw [hsc]; rfl⟩
          · rw [if_neg hb]
            dsimp only
            simp only [applyCb]
            obtain ⟨hcb, hrows, hsr, hsc⟩ := editorSearchCallback_inv
              (editorScroll { e with status := StatusMsg.promptMsg buf }) buf c hscr
            obtain ⟨g1, g2, g3, g4⟩ := editorPrompt_search_inv ks _ _ hcb
            exact ⟨g1, by rw [g2, hrows, editorScroll_rows],
              by rw [g3, hsr, editorScroll_screen_rows],
              by rw [g4, hsc, editorScroll_screen_cols]⟩
        · rw [if_neg h3]
          dsimp only
          simp only [applyCb]
          obtain ⟨hcb, hrows, hsr, hsc⟩ := editorSearchCallback_inv
            (editorScroll { e with status := StatusMsg.promptMsg buf })
            (if ¬ iscntrl c then buf ++ [intToChar c] else buf) c hscr
          obtain ⟨g1, g2, g3, g4⟩ := editorPrompt_search_inv ks _ _ hcb
          exact ⟨g1, by rw [g2, hrows, editorScroll_rows],
            by rw [g3, hsr, editorScroll_screen_rows],
            by rw [g4, hsc, editorScroll_screen_cols]⟩

/-- editorSearch preserves the invariant: the callback only jumps between
matches, the prompt only scrolls, and the Escape path restores the saved
cursor and viewport. -/
theorem editorSearch_inv (e : EState) (ks : List Int) (h : CursorInv e) :
    CursorInv (editorSearch e ks) := by
  obtain ⟨g1, g2, g3, g4⟩ := editorPrompt_search_inv ks e [] h
  unfold editorSearch
  dsimp only
  split
  · obtain ⟨h1, h2, h3, h4, h5, h6, h7, h8, h9⟩ := h
    obtain ⟨k1, k2, k3, k4, k5, k6, k7, k8, k9⟩ := g1
    unfold CursorInv at *
    dsimp only
    simp only [numRows, g2, g3, g4] at *
    exact ⟨h1, h2, h3, h4, h5, h6, h7, h8, h9⟩
  · exact g1

/-- editorSave touches only dirty, file_name, and the status message. -/
theorem editorSave_geometry (e : EState) (pr : Option (List Char)) (oOk tOk : Bool)
    (w : Int) :
    (editorSave e pr oOk tOk w).cursor_x = e.cursor_x ∧
      (editorSave e pr oOk tOk w).cursor_y = e.cursor_y ∧
      (editorSave e pr oOk tOk w).rows = e.rows ∧
      (editorSave e pr oOk tOk w).row_offset = e.row_offset ∧
      (editorSave e pr oOk tOk w).col_offset = e.col_offset ∧
      (editorSave e pr oOk tOk w).screen_rows = e.screen_rows ∧
      (editorSave e pr oOk tOk w).screen_cols = e.screen_cols := by
  unfold editorSave
  rcases hfn : e.file_name with _ | f <;> simp only [hfn] <;> (try dsimp only)
  · rcases pr with _ | g
    · exact ⟨rfl, rfl, rfl, rfl, rfl, rfl, rfl⟩
    · split_ifs <;> exact ⟨rfl, rfl, rfl, rfl, rfl, rfl, rfl⟩
  · split_ifs <;> exact ⟨rfl, rfl, rfl, rfl, rfl, rfl, rfl⟩

/-- The invariant only looks at the cursor, the rows, the offsets and the
screen size, so it transfers along states that agree there. -/
theorem CursorInv_transfer (a b : EState)
    (hcx : b.cursor_x = a.cursor_x) (hcy : b.cursor_y = a.cursor_y)
    (hrows : b.rows = a.rows) (hro : b.row_offset = a.row_offset)
    (hco : b.col_offset = a.col_offset) (hsr : b.screen_rows = a.screen_rows)
    (hsc : b.screen_cols = a.screen_cols) (h : CursorInv a) : CursorInv b := by
  unfold CursorInv numRows at *
  rw [hcx, hcy, hrows, hro, hco, hsr, hsc]
  exact h

theorem editorSave_inv (e : EState) (pr : Option (List Char)) (oOk tOk : Bool) (w : Int)
    (h : CursorInv e) : CursorInv (editorSave e pr oOk tOk w) := by
  obtain ⟨f1, f2, f3, f4, f5, f6, f7⟩ := editorSave_geometry e pr oOk tOk w
  exact CursorInv_transfer e _ f1 f2 f3 f4 f5 f6 f7 h

/-- One main-loop iteration (refresh scroll + keypress dispatch) preserves
the invariant, for every event except a PageDown key press. -/
theorem stepEv_inv (p : EState × Int) (ev : EdEvent) (h : CursorInv p.1)
    (hev : ev ≠ EdEvent.key PAGE_DOWN) : CursorInv (stepEv p ev).1 := by
  have hs : CursorInv (editorScroll p.1) := editorScroll_inv p.1 h
  have hro := editorScroll_ro_le p.1 h.2.2.2.2.2.2.2.1
  cases ev with
  | save pr oOk tOk w => exact editorSave_inv _ pr oOk tOk w hs
  | search ks => exact editorSearch_inv _ ks hs
  | key c =>
    have hcpd : c ≠ PAGE_DOWN := fun hc => hev (by rw [hc])
    show CursorInv (editorProcessKeypress (editorScroll p.1) p.2 (.key c)).1
    unfold editorProcessKeypress
    dsimp only
    by_cases h13 : c = 13
    · rw [if_pos h13]; exact editorInsertNewline_inv _ hs
    rw [if_neg h13]
    by_cases hq : c = CTRL_KEY 'q'
    · rw [if_pos hq]
      split_ifs with hd
      · exact hs
      · exact hs
    rw [if_neg hq]
    by_cases har : c = ARROW_UP ∨ c = ARROW_DOWN ∨ c = ARROW_LEFT ∨ c = ARROW_RIGHT
    · rw [if_pos har]; exact editorMoveCursor_inv_of_inv _ c hs
    rw [if_neg har]
    by_cases hpg : c = PAGE_UP ∨ c = PAGE_DOWN
    · rw [if_pos hpg]
      have hpu : c = PAGE_UP := hpg.resolve_right hcpd
      subst hpu
      simp only [eq_self_iff_true, if_true]
      try dsimp only
      obtain ⟨h1, h2, h3, h4, h5, h6, h7, h8, h9⟩ := hs
      apply timesMove_inv_weak
      · omega
      · exact h1
      · exact h6
      · show (editorScroll p.1).row_offset ≤ numRows (editorScroll p.1)
        have hcy := editorScroll_cursor_y p.1
        omega
      · exact h6
      · exact h7
      · exact h8
      · exact h9
    rw [if_neg hpg]
    by_cases hh : c = HOME_KEY
    · rw [if_pos hh]
      obtain ⟨h1, h2, h3, h4, h5, h6, h7, h8, h9⟩ := hs
      exact ⟨le_refl 0, h2, h3, fun _ => rowLenAt_nonneg _ _, fun _ => rfl, h6, h7, h8, h9⟩
    rw [if_neg hh]
    by_cases hend : c = END_KEY
    · rw [if_pos hend]
      dsimp only
      split_ifs with hlt
      · obtain ⟨h1, h2, h3, h4, h5, h6, h7, h8, h9⟩ := hs
        exact ⟨rowLenAt_nonneg _ _, h2, h3, fun _ => le_refl _,
          fun heq => absurd heq (ne_of_lt hlt), h6, h7, h8, h9⟩
      · exact hs
    rw [if_neg hend]
    by_cases hbs : c = BACKSPACE ∨ c = CTRL_KEY 'h' ∨ c = DEL_KEY
    · rw [if_pos hbs]
      dsimp only
      split_ifs with hdel
      · exact editorDelChar_inv _ (editorMoveCursor_inv_of_inv _ ARROW_RIGHT hs)
      · exact editorDelChar_inv _ hs
    rw [if_neg hbs]
    by_cases hlast : c = CTRL_KEY 'l' ∨ c = 27
    · rw [if_pos hlast]; exact hs
    rw [if_neg hlast]
    exact editorInsertChar_inv _ c hs

/-- States reachable by the editor main loop from a freshly initialized
editor: any sequence of key events (with their refresh scroll), including
Ctrl-S saves and Ctrl-F searches, plus asynchronous window-resize signals
(editorHandleSigwinch). -/
inductive ReachTTE (rows0 : List (List Char)) (sr sc : Int) (fn : Option (List Char)) :
    EState × Int → Prop
  | init : ReachTTE rows0 sr sc fn (initState rows0 sr sc fn, TTE_QUIT_TIMES)
  | step (p : EState × Int) (ev : EdEvent) (hp : ReachTTE rows0 sr sc fn p) :
      ReachTTE rows0 sr sc fn ((stepEv p ev).1, (stepEv p ev).2.1)
  | winch (p : EState × Int) (r c : Int) (hp : ReachTTE rows0 sr sc fn p) :
      ReachTTE rows0 sr sc fn (editorHandleSigwinch p.1 r c, p.2)

/-- States reachable when PageDown key presses and window-resize signals are
excluded (every other key event, save and search included). -/
inductive ReachNoPD (rows0 : List (List Char)) (sr sc : Int) (fn : Option (List Char)) :
    EState × Int → Prop
  | init : ReachNoPD rows0 sr sc fn (initState rows0 sr sc fn, TTE_QUIT_TIMES)
  | step (p : EState × Int) (ev : EdEvent) (hp : ReachNoPD rows0 sr sc fn p)
      (hev : ev ≠ EdEvent.key PAGE_DOWN) :
      ReachNoPD rows0 sr sc fn ((stepEv p ev).1, (stepEv p ev).2.1)

/-- C1 as stated is false: from a freshly initialized empty editor with a
4-row terminal (screen_rows = 2), a single PageDown key press is a
reachable editor state with cursor_y = 1 while num_rows = 0, so cursor_y
leaves [0, num_rows] (the PageDown branch sets
`cursor_y = row_offset + screen_rows - 1` without clamping it to the
buffer). -/
theorem cursor_bounds_counterexample :
    ReachTTE [] 2 10 none
      ((stepEv (initState [] 2 10 none, TTE_QUIT_TIMES) (.key PAGE_DOWN)).1,
        (stepEv (initState [] 2 10 none, TTE_QUIT_TIMES) (.key PAGE_DOWN)).2.1) ∧
      (stepEv (initState [] 2 10 none, TTE_QUIT_TIMES) (.key PAGE_DOWN)).1.cursor_y = 1 ∧
      numRows (stepEv (initState [] 2 10 none, TTE_QUIT_TIMES) (.key PAGE_DOWN)).1 = 0 :=
  ⟨ReachTTE.step _ _ ReachTTE.init, by decide, by decide⟩

/-- C1, amended: for every editor state reachable by any sequence of key
events other than PageDown and window-resize handling (arrows, PageUp,
Home/End, Enter, Backspace/Delete, character inserts, quit presses, save,
search), on a screen of positive size, cursor_y stays in [0, num_rows], and
cursor_x stays in [0, size of the row at cursor_y] when cursor_y < num_rows
and equals 0 when cursor_y = num_rows.  (PageDown can push cursor_y past
num_rows — see the counterexample — and the resize handler clamps the
cursor against the screen geometry instead of the row bounds, which can
leave cursor_x beyond the row size or cursor_y negative.) -/
theorem cursor_stays_in_bounds (rows0 : List (List Char)) (sr sc : Int)
    (fn : Option (List Char)) (hsr : 1 ≤ sr) (hsc : 1 ≤ sc) (p : EState × Int)
    (hr : ReachNoPD rows0 sr sc fn p) :
    0 ≤ p.1.cursor_y ∧ p.1.cursor_y ≤ numRows p.1 ∧
      (p.1.cursor_y < numRows p.1 →
        0 ≤ p.1.cursor_x ∧ p.1.cursor_x ≤ rowLenAt p.1.rows p.1.cursor_y) ∧
      (p.1.cursor_y = numRows p.1 → p.1.cursor_x = 0) := by
  have hInv : CursorInv p.1 := by
    induction hr with
    | init =>
      exact ⟨le_refl 0, le_refl 0, Int.natCast_nonneg _, fun _ => rowLenAt_nonneg _ _,
        fun _ => rfl, le_refl 0, le_refl 0, hsr, hsc⟩
    | step p ev hp hev ih => exact stepEv_inv p ev ih hev
  obtain ⟨h1, h2, h3, h4, h5, -, -, -, -⟩ := hInv
  exact ⟨h2, h3, fun hlt => ⟨h1, h4 hlt⟩, h5⟩

/-- Witness for the amended C1 at the freshly initialized one-row editor. -/
theorem cursor_stays_in_bounds_witness :
    0 ≤ (initState [['a']] 1 1 none, TTE_QUIT_TIMES).1.cursor_y ∧
      (initState [['a']] 1 1 none, TTE_QUIT_TIMES).1.cursor_y ≤
        numRows (initState [['a']] 1 1 none, TTE_QUIT_TIMES).1 ∧
      ((initState [['a']] 1 1 none, TTE_QUIT_TIMES).1.cursor_y <
          numRows (initState [['a']] 1 1 none, TTE_QUIT_TIMES).1 →
        0 ≤ (initState [['a']] 1 1 none, TTE_QUIT_TIMES).1.cursor_x ∧
          (initState [['a']] 1 1 none, TTE_QUIT_TIMES).1.cursor_x ≤
            rowLenAt (initState [['a']] 1 1 none, TTE_QUIT_TIMES).1.rows
              (initState [['a']] 1 1 none, TTE_QUIT_TIMES).1.cursor_y) ∧
      ((initState [['a']] 1 1 none, TTE_QUIT_TIMES).1.cursor_y =
          numRows (initState [['a']] 1 1 none, TTE_QUIT_TIMES).1 →
        (initState [['a']] 1 1 none, TTE_QUIT_TIMES).1.cursor_x = 0) :=
  cursor_stays_in_bounds [['a']] 1 1 none (by decide) (by decide) _ ReachNoPD.init
